import Mathlib

/-!
Verification of the long-form generation controller and its support
routines in `bark_infinity/api.py`.

The Python source is shallowly embedded: numpy arrays become a `shape`
plus row-major `data` record, the three-stage model calls (semantic,
coarse, fine, codec decode) are opaque function parameters exactly as
the specification treats them, the filesystem is an abstract existence
predicate, and the cooperative cancellation flag is a schedule of the
boolean values it holds at each poll point.  Python exceptions are
modelled with `Option` (`none` = raised).
-/

namespace Bark

/-! ## Constants (api.py lines 1494-1509) -/

def SEMANTIC_VOCAB_SIZE : Int := 10000
def CODEBOOK_SIZE : Int := 1024
def N_COARSE_CODEBOOKS : Nat := 2
def N_FINE_CODEBOOKS : Nat := 8
/-- `COARSE_RATE_HZ = 75`. -/
def COARSE_RATE_HZ : Nat := 75
/-- `SEMANTIC_RATE_HZ = 49.9`; stored in tenths to stay in exact arithmetic. -/
def SEMANTIC_RATE_HZ_TENTHS : Nat := 499

/-! ## numpy array model

A numpy array is modelled by its shape and its row-major contents.
`WF` states that the data really has as many entries as the shape
announces; the validators never rely on it but the claims quantify over
well-formed ("well-typed") arrays. -/

structure NpArray where
  shape : List Nat
  data : List Int
deriving DecidableEq

def NpArray.ndim (a : NpArray) : Nat := a.shape.length

/-- `a.size` in numpy: the product of the dimensions. -/
def NpArray.size (a : NpArray) : Nat := a.shape.prod

def NpArray.WF (a : NpArray) : Prop := a.data.length = a.shape.prod

instance (a : NpArray) : Decidable a.WF := by unfold NpArray.WF; infer_instance

/-- Python `len(a)` on a numpy array: the first dimension; raises
(`none`) on a 0-dimensional array. -/
def pyLen (a : NpArray) : Option Nat :=
  match a.shape with
  | [] => none
  | n :: _ => some n

/-- `a.min()`, used by the reports only under a nonemptiness guard, so the
default for the empty list is never observed there. -/
def npMin (a : NpArray) : Int := (a.data.min?).getD 0

def npMax (a : NpArray) : Int := (a.data.max?).getD 0

/-! ## Rounding for the coarse ratio check

`generate_coarse_report` compares `round(coarse.shape[1] / len(semantic), 1)`
with `round(75 / 49.9, 1)`.  Python's `round` rounds half to even; we
model it in exact arithmetic on the scaled value: `roundHalfEvenTenths
num den` is `round(num/den, 1)` expressed in tenths (so the reference
value `round(75/49.9, 1) = 1.5` becomes `roundHalfEvenTenths 750 499 = 15`).
Floating-point representation error of Python's `round` at exact ties is
not modelled; no claim depends on a tie. -/

def roundHalfEvenTenths (num den : Nat) : Nat :=
  let a := 10 * num
  let q := a / den
  let r := a % den
  if 2 * r < den then q
  else if den < 2 * r then q + 1
  else if q % 2 = 0 then q else q + 1

/-- The reference value `round((COARSE_RATE_HZ/SEMANTIC_RATE_HZ*N)/N, 1)`
in tenths: `round(750/499, 1) * 10`. -/
def expectedRatioTenths : Nat :=
  roundHalfEvenTenths (COARSE_RATE_HZ * 10) (SEMANTIC_RATE_HZ_TENTHS)

/-! ## Validation reports (api.py lines 1511-1683)

Only the `valid` field of a report is modelled; the `messages` list is
purely diagnostic. -/

/-- `generate_text_semantic_report` (lines 1511-1544): `valid` is true iff
the semantic array is 1-dimensional, nonempty, and all values lie in
`[0, SEMANTIC_VOCAB_SIZE)`.  The isinstance check always passes for an
`NpArray`. -/
def generate_text_semantic_report (semantic : NpArray) : Bool :=
  if semantic.ndim ≠ 1 then false
  else if semantic.shape.headD 0 = 0 then false
  else if npMin semantic < 0 then false
  else if SEMANTIC_VOCAB_SIZE ≤ npMax semantic then false
  else true

/-- `generate_coarse_report` (lines 1547-1619).  The result is `none` when
the Python function raises: the ratio line divides by `len(semantic)`,
which is zero for an empty 1-d semantic array and itself raises for a
0-d one; both are reached whenever the coarse array passed its own
structural checks. -/
def generate_coarse_report (semantic coarse : NpArray) : Option Bool :=
  -- lines 1556-1581 repeat, check for check, the body of
  -- generate_text_semantic_report
  let semOk : Bool := generate_text_semantic_report semantic
  if coarse.ndim ≠ 2 then some (semOk && false)
  else if coarse.shape.headD 0 ≠ N_COARSE_CODEBOOKS then some false
  else if coarse.size = 0 then some false
  else
    let rangeOk : Bool :=
      if npMin coarse < 0 then false
      else if CODEBOOK_SIZE ≤ npMax coarse then false
      else true
    match pyLen semantic with
    | none => none
    | some 0 => none
    | some (ls + 1) =>
      let tc := (coarse.shape.drop 1).headD 0
      some (semOk && rangeOk &&
        (roundHalfEvenTenths tc (ls + 1) = expectedRatioTenths))

/-- `generate_fine_report` (lines 1622-1660): `valid` iff the fine array is
2-dimensional, nonempty, has `N_FINE_CODEBOOKS` rows, and all values lie
in `[0, CODEBOOK_SIZE)`.  The width is never compared with the coarse
width. -/
def generate_fine_report (fine : NpArray) : Bool :=
  if fine.ndim ≠ 2 then false
  else if fine.size = 0 then false
  else if fine.shape.headD 0 ≠ N_FINE_CODEBOOKS then false
  else if npMin fine < 0 then false
  else if CODEBOOK_SIZE ≤ npMax fine then false
  else true

/-! ## Loading and top-level validation -/

/-- A history-prompt dict: each of the three fixed keys may be absent. -/
structure PromptDict where
  semantic_prompt : Option NpArray
  coarse_prompt : Option NpArray
  fine_prompt : Option NpArray
deriving DecidableEq

/-- Modelled from the spec: `generation._load_history_prompt` is not under
`src/`; §6 of the spec requires loading to fail with a clear error if any
of the three keys is absent rather than substituting defaults. -/
def load_history_prompt (d : PromptDict) : Option (NpArray × NpArray × NpArray) :=
  match d.semantic_prompt, d.coarse_prompt, d.fine_prompt with
  | some s, some c, some f => some (s, c, f)
  | _, _, _ => none

/-- Outcome of `history_prompt_is_valid` as observed by a caller. -/
inductive ValidOutcome where
  /-- An exception escaped the function. -/
  | raised
  /-- The load failed; the exception was caught and `None` returned. -/
  | returnedNone
  /-- A boolean verdict was returned. -/
  | ok (b : Bool)
deriving DecidableEq

/-- `history_prompt_is_valid` (lines 1671-1683): load (exceptions caught,
returning `None`), then conjoin the three report verdicts.  Only the
coarse report can raise, and that exception is not caught. -/
def history_prompt_is_valid (d : PromptDict) : ValidOutcome :=
  match load_history_prompt d with
  | none => .returnedNone
  | some (s, c, f) =>
    let semR := generate_text_semantic_report s
    match generate_coarse_report s c with
    | none => .raised
    | some coarseR => .ok (semR && coarseR && generate_fine_report f)

/-! ## posixpath helpers

`os.path.dirname`, `os.path.join` and `os.path.splitext`, embedded from
CPython's posixpath on `List Char` so that concrete evaluations reduce in
the kernel. -/

/-- Largest index of `c` in `l` (Python `str.rfind`), `none` if absent. -/
def lastIdxOf (c : Char) (l : List Char) : Option Nat :=
  (List.range l.length).foldl
    (fun acc i => if l.get? i = some c then some i else acc) none

/-- `os.path.dirname`: everything up to the last slash, with trailing
slashes stripped unless the head is all slashes. -/
def pyDirname (s : String) : String :=
  match lastIdxOf '/' s.data with
  | none => ""
  | some i =>
    let head := s.data.take (i + 1)
    if head.all (· = '/') then ⟨head⟩
    else ⟨(head.reverse.dropWhile (· = '/')).reverse⟩

/-- `os.path.join a b` for a single separator. -/
def pyJoin (a b : String) : String :=
  if b.data.headD ' ' = '/' then b
  else if a.data = [] ∨ a.data.getLast? = some '/' then a ++ b
  else a ++ "/" ++ b

/-- `os.path.splitext`: split at the last dot, provided it lies after the
last slash and the basename has a non-dot character before it. -/
def pySplitext (s : String) : String × String :=
  let l := s.data
  let sepNext := match lastIdxOf '/' l with
    | none => 0
    | some i => i + 1
  match lastIdxOf '.' l with
  | none => (s, "")
  | some d =>
    if sepNext ≤ d ∧ (List.range' sepNext (d - sepNext)).any
        (fun i => l.get? i ≠ some '.') then
      (⟨l.take d⟩, ⟨l.drop d⟩)
    else (s, "")

/-! ## Speaker-file resolution (api.py lines 235-269)

The filesystem is an abstract existence predicate and
`history_prompt_is_valid` applied to an on-disk path is abstracted as a
predicate on paths, since both depend on disk contents. -/

/-- `process_history_prompt`.  Note the directory loop keeps overwriting
`history_prompt_returned` without breaking, so the last directory that
contains the file wins. -/
def process_history_prompt (fsExists validAt : String → Bool)
    (dirs : List String) (user : Option String) : Option String :=
  match user with
  | none => none
  | some u =>
    let se := pySplitext u
    let file_name := se.1
    let file_extension := if se.2 = "" then ".npz" else se.2
    let full_path := file_name ++ file_extension
    let found : Option String :=
      if pyDirname full_path ≠ "" then
        if fsExists full_path then some full_path else none
      else
        dirs.foldl (fun acc d =>
          let p := pyJoin d (file_name ++ file_extension)
          if fsExists p then some p else acc) none
    match found with
    | none => none
    | some p => if validAt p then some p else none

/-! ## Decimal rendering

A structurally recursive decimal printer standing in for the Python
f-string rendering of the suffix counter; proved injective below so that
distinct counters give distinct candidate paths. -/

def digitCharOf (d : Nat) : Char := Char.ofNat (48 + d)

def decDigitsAux : Nat → Nat → List Char
  | 0, _ => []
  | _ + 1, 0 => []
  | fuel + 1, n + 1 =>
    decDigitsAux fuel ((n + 1) / 10) ++ [digitCharOf ((n + 1) % 10)]

def natToDec (n : Nat) : String :=
  if n = 0 then "0" else ⟨decDigitsAux n n⟩

/-! ## Unique path allocation (api.py lines 378-385) -/

/-- The body of the `while os.path.exists` loop, with explicit fuel
(the Python loop terminates because the filesystem is finite). -/
def uniqueLoop (fsExists : String → Bool) (name ext : String) :
    Nat → String → Nat → String
  | _, current, 0 => current
  | counter, current, fuel + 1 =>
    if fsExists current then
      uniqueLoop fsExists name ext (counter + 1)
        (name ++ "_" ++ natToDec counter ++ ext) fuel
    else current

/-- `generate_unique_filepath`.  `sanitize` abstracts
`pathvalidate.sanitize_filepath` (out of scope per the spec); note the
suffix candidates are built from the unsanitized `filepath`. -/
def generate_unique_filepath (sanitize : String → String)
    (fsExists : String → Bool) (fuel : Nat) (filepath : String) : String :=
  let se := pySplitext filepath
  uniqueLoop fsExists se.1 se.2 1 (sanitize filepath) fuel

/-- The k-th suffix candidate `{name}_{k}{ext}` for a base path. -/
def suffixCandidate (filepath : String) (k : Nat) : String :=
  (pySplitext filepath).1 ++ "_" ++ natToDec k ++ (pySplitext filepath).2

/-- N sequential allocations for the same base path, creating each
returned path before the next call: returns the list of returned paths
and the final filesystem. -/
def allocRuns (sanitize : String → String) (fs0 : String → Bool)
    (fuel : Nat) (p : String) : Nat → List String × (String → Bool)
  | 0 => ([], fs0)
  | n + 1 =>
    let prev := allocRuns sanitize fs0 fuel p n
    let r := generate_unique_filepath sanitize prev.2 fuel p
    (prev.1 ++ [r], fun s => prev.2 s || s == r)

/-! ## The per-segment pipeline `generate_audio_barki` (api.py lines 461-618)

The four model calls are opaque parameters (spec §1/§6).  The global
cancellation flag `gradio_try_to_cancel` is set asynchronously by an
external caller; `flag t` is the value it holds at the t-th of the six
poll points of the function body (t = 0..5).  A conditioning bundle is
the triple of token arrays of a `full_generation` dict. -/

inductive Stage where
  | semanticStage
  | coarseStage
  | fineStage
  | decodeStage
  | writeSegStage
deriving DecidableEq

/-- What `generate_audio_barki` returns, as seen by the caller. -/
inductive BarkiRet (B A : Type) where
  /-- The `return None, None` taken at every cancellation poll. -/
  | cancelledPair
  /-- `output_full` set: the `(full_generation, audio_arr)` pair. -/
  | fullPair (fullGen : B) (audioArr : A)
  /-- `output_full` unset: just the audio array. -/
  | audioOnly (audioArr : A)
deriving DecidableEq

/-- `generate_audio_barki`, returning its result together with the list of
pipeline stages it actually invoked.  `semGen`, `coarseGen`, `fineGen`
and `decode` are the opaque model calls; the bundle type is the triple
(semantic, coarse, fine). -/
def generate_audio_barki {S C F A : Type}
    (flag : Nat → Bool) (history_prompt : Option (S × C × F))
    (semantic_history_only : Bool) (previous_segment_type : String)
    (absolute_semantic_history_only : Bool)
    (absolute_every_x : Option Int) (segment_number : Option Int)
    (output_full hoarder_mode : Bool) (total_segments : Int)
    (semGen : Option (S × C × F) → S)
    (coarseGen : S → Option (S × C × F) → C)
    (fineGen : C → Option (S × C × F) → F)
    (decode : F → A) :
    BarkiRet (S × C × F) A × List Stage :=
  if flag 0 then (.cancelledPair, [])
  else
    let semantic_tokens := semGen history_prompt
    if flag 1 then (.cancelledPair, [.semanticStage])
    else if flag 2 then (.cancelledPair, [.semanticStage])
    else
      let h1 := if previous_segment_type = "base_history" ∧ semantic_history_only
        then none else history_prompt
      let h2 := if absolute_semantic_history_only then none else h1
      let h3 := match absolute_every_x, segment_number with
        | some x, some n => if 0 < x ∧ n % x = 0 then none else h2
        | _, _ => h2
      let coarse_tokens := coarseGen semantic_tokens h3
      if flag 3 then (.cancelledPair, [.semanticStage, .coarseStage])
      else
        let fine_tokens := fineGen coarse_tokens h3
        if flag 4 then (.cancelledPair, [.semanticStage, .coarseStage, .fineStage])
        else
          let audioArr := decode fine_tokens
          let full_generation := (semantic_tokens, coarse_tokens, fine_tokens)
          if flag 5 then
            (.cancelledPair, [.semanticStage, .coarseStage, .fineStage, .decodeStage])
          else
            let stages :=
              if hoarder_mode ∧ 1 < total_segments then
                [.semanticStage, .coarseStage, .fineStage, .decodeStage, .writeSegStage]
              else [.semanticStage, .coarseStage, .fineStage, .decodeStage]
            if output_full then (.fullPair full_generation audioArr, stages)
            else (.audioOnly audioArr, stages)

/-- The stages executed before the t-th poll point. -/
def stagesBefore : Nat → List Stage
  | 0 => []
  | 1 => [.semanticStage]
  | 2 => [.semanticStage]
  | 3 => [.semanticStage, .coarseStage]
  | 4 => [.semanticStage, .coarseStage, .fineStage]
  | _ => [.semanticStage, .coarseStage, .fineStage, .decodeStage]

/-! ## The long-form controller `generate_audio_long` (api.py lines 817-1109)

The per-segment pipeline is abstracted as
`pipeline : Nat → Option B → Option (B × A)` (segment index and the
conditioning passed in; `none` models `generate_audio_barki` returning
`(None, None)` on cancellation — the controller always calls it with
`output_full = True`).  `loopCancel i` is the value of the global flag at
the poll point just before segment i's pipeline call, `finalCancel` its
value at the poll after the loop.  Text chunking and logging are the
external collaborators of spec §1; only the number of segments matters
here.  `copy.deepcopy` is the identity on immutable values. -/

/-- The controller's rolling state across loop iterations. -/
structure LongState (B : Type) where
  /-- `history_prompt_for_next_segment` -/
  rolling : Option B
  /-- `base_history` -/
  base : Option B
  /-- `stable_mode_interval_counter` (set only when the interval is ≥ 2) -/
  counter : Option Int
  /-- `kwargs["history_prompt"]` (persists across iterations) -/
  kwargsHistory : Option B
  /-- `history_prompt_flipper` -/
  flipper : Bool
  /-- `kwargs["previous_segment_type"]` -/
  prevType : String

/-- The continuity-policy branch at the top of each loop iteration
(api.py lines 979-1002). -/
def policyStep {B : Type} (sep flip : Bool) (st : LongState B) : LongState B :=
  if flip then
    if sep then
      if st.flipper then
        { st with kwargsHistory := none, rolling := none, flipper := false }
      else
        { st with kwargsHistory := st.rolling, flipper := true }
    else { st with kwargsHistory := st.rolling }
  else
    if sep then { st with rolling := none }
    else { st with kwargsHistory := st.rolling }

/-- The post-generation bookkeeping (api.py lines 1042-1075): backfill
`base_history` from the first generation, then update the rolling
conditioning per the stability interval; `none` is the
`something has gone wrong` fatal branch. -/
def stabilityUpdate {B : Type} (interval : Int) (st : LongState B) (full : B) :
    Option (LongState B) :=
  let st := if st.base.isNone then { st with base := some full } else st
  if interval = 0 then
    some { st with prevType := "full_generation", rolling := some full }
  else if interval = 1 then
    some { st with prevType := "base_history", rolling := st.base }
  else if 2 ≤ interval then
    if st.counter = some 1 then
      some { st with counter := some interval, prevType := "base_history",
                     rolling := st.base }
    else
      some { st with counter := st.counter.map (· - 1),
                     prevType := "full_generation", rolling := some full }
  else none

/-- Everything the segment loop produces.  On the `return None, None, None`
paths `ok` is false and the accumulated bundles and audio are discarded,
exactly as the Python function drops them; `conds` and `rollings` record,
for each pipeline call actually made, the conditioning passed in
(`kwargs["history_prompt"]`) and the rolling conditioning at that moment;
`counters` records the stability counter after each completed segment. -/
structure LoopOut (B A : Type) where
  ok : Bool
  bundles : List B
  audioSegs : List A
  conds : List (Option B)
  rollings : List (Option B)
  counters : List (Option Int)
deriving DecidableEq

/-- The segment loop (api.py lines 939-1086).  `i` is the 0-based index of
the next segment, `rem` the number of segments still to process. -/
def longLoop {B A : Type} (pipeline : Nat → Option B → Option (B × A))
    (loopCancel : Nat → Bool) (interval : Int) (sep flip : Bool)
    (dryRun : Bool) (silence : Option A) :
    Nat → Nat → LongState B → List B → List A → List (Option B) →
    List (Option B) → List (Option Int) → LoopOut B A
  | _, 0, _, bs, auds, cs, rs, ks => ⟨true, bs, auds, cs, rs, ks⟩
  | i, rem + 1, st, bs, auds, cs, rs, ks =>
    if dryRun then
      longLoop pipeline loopCancel interval sep flip dryRun silence
        (i + 1) rem st bs auds cs rs ks
    else
      let st1 := policyStep sep flip st
      if loopCancel i then ⟨false, [], [], cs, rs, ks⟩
      else
        match pipeline i st1.kwargsHistory with
        | none => ⟨false, [], [], cs ++ [st1.kwargsHistory], rs ++ [st1.rolling], ks⟩
        | some fa =>
          match stabilityUpdate interval st1 fa.1 with
          | none => ⟨false, [], [], cs ++ [st1.kwargsHistory], rs ++ [st1.rolling], ks⟩
          | some st2 =>
            let auds2 := auds ++ [fa.2] ++
              (match silence with | some z => [z] | none => [])
            longLoop pipeline loopCancel interval sep flip dryRun silence
              (i + 1) rem st2 (bs ++ [fa.1]) auds2
              (cs ++ [st1.kwargsHistory]) (rs ++ [st1.rolling])
              (ks ++ [st2.counter])

/-- Observable milestones of a long-form run, in order of occurrence. -/
inductive LongEvent where
  /-- the text was chunked into segments -/
  | chunked
  /-- the base conditioning bundle was resolved and loaded -/
  | baseResolved
  /-- the named base conditioning could not be resolved; error reported,
  cancellation flags set -/
  | resolveFailed
  /-- the final concatenated artifact was written -/
  | wroteFinal
deriving DecidableEq

/-- The controller's result: `out` is `none` on every
`return None, None, None` path. -/
structure LongOut (B A : Type) where
  out : Option (List B × List A)
  events : List LongEvent
  loopOut : LoopOut B A
deriving DecidableEq

/-- Epilogue shared by the paths that reach the segment loop. -/
def longFinish {B A : Type} (dryRun finalCancel : Bool)
    (evs : List LongEvent) (lp : LoopOut B A) : LongOut B A :=
  if lp.ok = false then ⟨none, evs, lp⟩
  else if finalCancel then ⟨none, evs, lp⟩
  else if dryRun then ⟨some (lp.bundles, lp.audioSegs), evs, lp⟩
  else ⟨some (lp.bundles, lp.audioSegs), evs ++ [.wroteFinal], lp⟩

/-- `generate_audio_long`.  Parameters mirror the kwargs:
`stable_mode_interval_opt = None` defaults to 1 and negative values are
clamped to 0 (lines 839-849); chunking (lines 873-879) happens before the
base conditioning is resolved (lines 885-902); on resolution failure the
function reports the error, sets the cancellation flags and returns
`(None, None, None)`.  `loadBundle` abstracts `np.load` on the resolved
path. -/
def generate_audio_long {B A : Type}
    (fsExists validAt : String → Bool) (dirs : List String)
    (loadBundle : String → B) (history_prompt : Option String)
    (stable_mode_interval_opt : Option Int)
    (text_splits_only dry_run_in sep flip : Bool)
    (nSegments : Nat)
    (pipeline : Nat → Option B → Option (B × A))
    (loopCancel : Nat → Bool) (finalCancel : Bool)
    (silence : Option A) : LongOut B A :=
  let interval0 := stable_mode_interval_opt.getD 1
  let interval := if interval0 < 0 then 0 else interval0
  let counter0 : Option Int := if 2 ≤ interval then some interval else none
  let dryRun := if text_splits_only then true else dry_run_in
  let ev0 : List LongEvent := [.chunked]
  if text_splits_only then ⟨none, ev0, ⟨true, [], [], [], [], []⟩⟩
  else
    match history_prompt with
    | some name =>
      match process_history_prompt fsExists validAt dirs (some name) with
      | none => ⟨none, ev0 ++ [.resolveFailed], ⟨true, [], [], [], [], []⟩⟩
      | some path =>
        let base := loadBundle path
        let st0 : LongState B :=
          ⟨some base, some base, counter0, none, false, "base_history"⟩
        longFinish dryRun finalCancel (ev0 ++ [.baseResolved])
          (longLoop pipeline loopCancel interval sep flip dryRun silence
            0 nSegments st0 [] [] [] [] [])
    | none =>
      let st0 : LongState B := ⟨none, none, counter0, none, false, ""⟩
      longFinish dryRun finalCancel ev0
        (longLoop pipeline loopCancel interval sep flip dryRun silence
          0 nSegments st0 [] [] [] [] [])

/-! ## Helper lemmas: element-wise bounds via fold of min and max -/

theorem foldl_min_le_iff (c x : Int) (xs : List Int) :
    c ≤ xs.foldl min x ↔ c ≤ x ∧ ∀ y ∈ xs, c ≤ y := by
  induction xs generalizing x with
  | nil => simp
  | cons y ys ih =>
    simp only [List.foldl_cons, ih, le_min_iff, List.mem_cons]
    constructor
    · rintro ⟨⟨h1, h2⟩, h3⟩
      exact ⟨h1, fun z hz => hz.elim (fun e => e ▸ h2) (h3 z)⟩
    · rintro ⟨h1, h2⟩
      exact ⟨⟨h1, h2 y (Or.inl rfl)⟩, fun z hz => h2 z (Or.inr hz)⟩

theorem foldl_max_lt_iff (b x : Int) (xs : List Int) :
    xs.foldl max x < b ↔ x < b ∧ ∀ y ∈ xs, y < b := by
  induction xs generalizing x with
  | nil => simp
  | cons y ys ih =>
    simp only [List.foldl_cons, ih, max_lt_iff, List.mem_cons]
    constructor
    · rintro ⟨⟨h1, h2⟩, h3⟩
      exact ⟨h1, fun z hz => hz.elim (fun e => e ▸ h2) (h3 z)⟩
    · rintro ⟨h1, h2⟩
      exact ⟨⟨h1, h2 y (Or.inl rfl)⟩, fun z hz => h2 z (Or.inr hz)⟩

theorem npMin_nonneg_iff (a : NpArray) (h : a.data ≠ []) :
    0 ≤ npMin a ↔ ∀ x ∈ a.data, 0 ≤ x := by
  obtain ⟨x, xs, hx⟩ := List.exists_cons_of_ne_nil h
  simp only [npMin, hx, List.min?, Option.getD_some, foldl_min_le_iff,
    List.mem_cons]
  constructor
  · rintro ⟨h1, h2⟩ z hz
    exact hz.elim (fun e => e ▸ h1) (h2 z)
  · intro h1
    exact ⟨h1 x (Or.inl rfl), fun z hz => h1 z (Or.inr hz)⟩

theorem npMax_lt_iff (a : NpArray) (h : a.data ≠ []) (b : Int) :
    npMax a < b ↔ ∀ x ∈ a.data, x < b := by
  obtain ⟨x, xs, hx⟩ := List.exists_cons_of_ne_nil h
  simp only [npMax, hx, List.max?, Option.getD_some, foldl_max_lt_iff,
    List.mem_cons]
  constructor
  · rintro ⟨h1, h2⟩ z hz
    exact hz.elim (fun e => e ▸ h1) (h2 z)
  · intro h1
    exact ⟨h1 x (Or.inl rfl), fun z hz => h1 z (Or.inr hz)⟩

/-! ## Report characterisations -/

/-- The semantic report verdict, characterised on well-formed arrays. -/
theorem semantic_report_true_iff (s : NpArray) (hs : s.WF) :
    generate_text_semantic_report s = true ↔
      s.ndim = 1 ∧ s.data ≠ [] ∧
        ∀ x ∈ s.data, 0 ≤ x ∧ x < SEMANTIC_VOCAB_SIZE := by
  unfold generate_text_semantic_report
  rcases hsh : s.shape with - | ⟨n, rest⟩
  · simp [NpArray.ndim, hsh]
  rcases rest with - | ⟨m, rest2⟩
  case cons.cons => simp [NpArray.ndim, hsh]
  have h1 : s.ndim = 1 := by simp [NpArray.ndim, hsh]
  have hlen : s.data.length = n := by simpa [NpArray.WF, hsh] using hs
  rcases Nat.eq_zero_or_pos n with h0 | h0
  · have hdata : s.data = [] := List.length_eq_zero.mp (by omega)
    simp [h1, hsh, h0, hdata]
  · have hne : s.data ≠ [] := by
      intro he; rw [he] at hlen; simp at hlen; omega
    rw [if_neg (by simp [h1])]
    simp only [List.headD_cons]
    rw [if_neg (by omega)]
    constructor
    · intro h
      have hmin : ¬ npMin s < 0 := by
        by_contra hc; simp [hc] at h
      have hmax : ¬ SEMANTIC_VOCAB_SIZE ≤ npMax s := by
        by_contra hc; simp [hmin, hc] at h
      exact ⟨h1, hne, fun x hx =>
        ⟨(npMin_nonneg_iff s hne).mp (by omega) x hx,
         (npMax_lt_iff s hne _).mp (by omega) x hx⟩⟩
    · rintro ⟨-, -, hall⟩
      have hmin : 0 ≤ npMin s :=
        (npMin_nonneg_iff s hne).mpr (fun x hx => (hall x hx).1)
      have hmax : npMax s < SEMANTIC_VOCAB_SIZE :=
        (npMax_lt_iff s hne _).mpr (fun x hx => (hall x hx).2)
      rw [if_neg (by omega), if_neg (by omega)]

/-- The fine report verdict, characterised on well-formed arrays. -/
theorem fine_report_true_iff (f : NpArray) (hf : f.WF) :
    generate_fine_report f = true ↔
      ∃ t, f.shape = [N_FINE_CODEBOOKS, t] ∧ 0 < t ∧
        ∀ x ∈ f.data, 0 ≤ x ∧ x < CODEBOOK_SIZE := by
  unfold generate_fine_report
  rcases hsh : f.shape with - | ⟨a, - | ⟨b, - | ⟨c0, rest⟩⟩⟩
  · simp [NpArray.ndim, hsh]
  · simp [NpArray.ndim, hsh]
  case cons.cons.cons => simp [NpArray.ndim, hsh]
  have h2 : f.ndim = 2 := by simp [NpArray.ndim, hsh]
  have hlen : f.data.length = a * b := by simpa [NpArray.WF, hsh] using hf
  have hprod : f.size = a * b := by simp [NpArray.size, hsh]
  rw [if_neg (by simp [h2])]
  rcases Nat.eq_zero_or_pos (a * b) with h0 | h0
  · have hsz : f.size = 0 := hprod.trans h0
    rw [if_pos hsz]
    refine iff_of_false (by simp) ?_
    rintro ⟨t, ht, htpos, -⟩
    obtain ⟨ha, hb⟩ : a = N_FINE_CODEBOOKS ∧ b = t := by
      simpa using ht
    rw [ha, hb] at h0
    simp only [N_FINE_CODEBOOKS] at h0
    omega
  · have hsz : f.size ≠ 0 := by
      rw [hprod]; exact Nat.pos_iff_ne_zero.mp h0
    rw [if_neg hsz]
    have hne : f.data ≠ [] := by
      refine (List.length_pos.mp ?_)
      rw [hlen]; exact h0
    simp only [List.headD_cons]
    by_cases h8 : a = N_FINE_CODEBOOKS
    · rw [if_neg (by simp [h8])]
      constructor
      · intro h
        have hmin : ¬ npMin f < 0 := by
          by_contra hc; simp [hc] at h
        have hmax : ¬ CODEBOOK_SIZE ≤ npMax f := by
          by_contra hc; simp [hmin, hc] at h
        have hb : 0 < b := by
          cases b with
          | zero => simp at h0
          | succ k => omega
        exact ⟨b, by rw [h8], hb, fun x hx =>
          ⟨(npMin_nonneg_iff f hne).mp (by omega) x hx,
           (npMax_lt_iff f hne _).mp (by omega) x hx⟩⟩
      · rintro ⟨t, ht, htpos, hall⟩
        have hmin : 0 ≤ npMin f :=
          (npMin_nonneg_iff f hne).mpr (fun x hx => (hall x hx).1)
        have hmax : npMax f < CODEBOOK_SIZE :=
          (npMax_lt_iff f hne _).mpr (fun x hx => (hall x hx).2)
        rw [if_neg (by omega), if_neg (by omega)]
    · rw [if_pos (by simpa using h8)]
      refine iff_of_false (by simp) ?_
      rintro ⟨t, ht, -, -⟩
      obtain ⟨ha, -⟩ : a = N_FINE_CODEBOOKS ∧ b = t := by simpa using ht
      exact h8 ha

/-- The coarse report raises exactly when the coarse array passes its
structural checks while the semantic array offers no positive length for
the ratio denominator. -/
theorem coarse_report_raises_iff (s c : NpArray) :
    generate_coarse_report s c = none ↔
      c.ndim = 2 ∧ c.shape.headD 0 = N_COARSE_CODEBOOKS ∧ c.size ≠ 0 ∧
        s.shape.headD 0 = 0 := by
  unfold generate_coarse_report
  by_cases h2 : c.ndim = 2
  · rw [if_neg (by simp [h2])]
    by_cases hh : c.shape.headD 0 = N_COARSE_CODEBOOKS
    · rw [if_neg (fun hcon => hcon hh)]
      by_cases hz : c.size = 0
      · rw [if_pos hz]
        exact iff_of_false (by simp) (by tauto)
      · rw [if_neg hz]
        rcases hsh : s.shape with - | ⟨n, rest⟩
        · simp only [pyLen, hsh, List.headD_nil]
          exact iff_of_true (by trivial) ⟨h2, hh, hz, by trivial⟩
        · rcases n with - | n
          · simp only [pyLen, hsh, List.headD_cons]
            exact iff_of_true (by trivial) ⟨h2, hh, hz, by trivial⟩
          · simp only [pyLen, hsh, List.headD_cons]
            exact iff_of_false (by simp) (by rintro ⟨-, -, -, h⟩; omega)
    · rw [if_pos hh]
      exact iff_of_false (by simp) (by tauto)
  · rw [if_pos (by simpa using h2)]
    exact iff_of_false (by simp) (by tauto)

/-- The coarse report verdict, characterised on well-formed arrays. -/
theorem coarse_report_true_iff (s c : NpArray) (hc : c.WF) :
    generate_coarse_report s c = some true ↔
      generate_text_semantic_report s = true ∧
      ∃ t, c.shape = [N_COARSE_CODEBOOKS, t] ∧ 0 < t ∧
        (∀ x ∈ c.data, 0 ≤ x ∧ x < CODEBOOK_SIZE) ∧
        roundHalfEvenTenths t (s.shape.headD 0) = expectedRatioTenths := by
  unfold generate_coarse_report
  rcases hsh : c.shape with - | ⟨a, - | ⟨b, - | ⟨c0, rest⟩⟩⟩
  · rw [if_pos (by simp [NpArray.ndim, hsh])]
    exact iff_of_false (by simp) (by rintro ⟨-, t, ht, -⟩; simp [hsh] at ht)
  · rw [if_pos (by simp [NpArray.ndim, hsh])]
    exact iff_of_false (by simp) (by rintro ⟨-, t, ht, -⟩; simp [hsh] at ht)
  case cons.cons.cons =>
    rw [if_pos (by simp [NpArray.ndim, hsh])]
    exact iff_of_false (by simp) (by rintro ⟨-, t, ht, -⟩; simp [hsh] at ht)
  have h2 : c.ndim = 2 := by simp [NpArray.ndim, hsh]
  have hlen : c.data.length = a * b := by simpa [NpArray.WF, hsh] using hc
  have hprod : c.size = a * b := by simp [NpArray.size, hsh]
  rw [if_neg (by simp [h2])]
  simp only [List.headD_cons]
  by_cases ha : a = N_COARSE_CODEBOOKS
  · rw [if_neg (by simp [ha])]
    rcases Nat.eq_zero_or_pos (a * b) with h0 | h0
    · rw [if_pos (hprod.trans h0)]
      refine iff_of_false (by simp) ?_
      rintro ⟨-, t, ht, htpos, -⟩
      obtain ⟨-, hb⟩ : a = N_COARSE_CODEBOOKS ∧ b = t := by simpa using ht
      rw [ha, hb] at h0
      simp only [N_COARSE_CODEBOOKS] at h0
      omega
    · rw [if_neg (by rw [hprod]; exact Nat.pos_iff_ne_zero.mp h0)]
      have hne : c.data ≠ [] := by
        refine List.length_pos.mp ?_
        rw [hlen]; exact h0
      have hb : 0 < b := by
        rcases Nat.eq_zero_or_pos b with hb0 | hb0
        · rw [hb0, Nat.mul_zero] at h0; omega
        · exact hb0
      rcases hss : s.shape with - | ⟨n, srest⟩
      · have hsem : generate_text_semantic_report s = false := by
          unfold generate_text_semantic_report
          rw [if_pos (by simp [NpArray.ndim, hss])]
        simp only [pyLen, hss]
        refine iff_of_false (by simp) ?_
        rintro ⟨hsr, -⟩
        rw [hsem] at hsr; exact Bool.false_ne_true hsr
      · rcases n with - | n
        · have hsem : generate_text_semantic_report s = false := by
            unfold generate_text_semantic_report
            rcases hnd : s.ndim with - | m
            · rw [if_pos (by omega)]
            · rcases m with - | m
              · rw [if_neg (by omega), if_pos (by simp [hss])]
              · rw [if_pos (by omega)]
          simp only [pyLen, hss]
          refine iff_of_false (by simp) ?_
          rintro ⟨hsr, -⟩
          rw [hsem] at hsr; exact Bool.false_ne_true hsr
        · simp only [pyLen, hss, List.headD_cons]
          have hrange : (if npMin c < 0 then false
              else if CODEBOOK_SIZE ≤ npMax c then false else true) = true ↔
              ∀ x ∈ c.data, 0 ≤ x ∧ x < CODEBOOK_SIZE := by
            constructor
            · intro h
              have hmin : ¬ npMin c < 0 := by
                by_contra hx; simp [hx] at h
              have hmax : ¬ CODEBOOK_SIZE ≤ npMax c := by
                by_contra hx; simp [hmin, hx] at h
              exact fun x hx =>
                ⟨(npMin_nonneg_iff c hne).mp (by omega) x hx,
                 (npMax_lt_iff c hne _).mp (by omega) x hx⟩
            · intro hall
              have hmin : 0 ≤ npMin c :=
                (npMin_nonneg_iff c hne).mpr (fun x hx => (hall x hx).1)
              have hmax : npMax c < CODEBOOK_SIZE :=
                (npMax_lt_iff c hne _).mpr (fun x hx => (hall x hx).2)
              rw [if_neg (by omega), if_neg (by omega)]
          constructor
          · intro h
            have hx := h
            simp only [Option.some.injEq, Bool.and_eq_true, decide_eq_true_eq]
              at hx
            obtain ⟨⟨hsr, hrg⟩, hrt⟩ := hx
            exact ⟨hsr, b, by rw [ha], hb, hrange.mp hrg, by simpa using hrt⟩
          · rintro ⟨hsr, t, ht, htpos, hall, hratio⟩
            obtain ⟨-, hbt⟩ : a = N_COARSE_CODEBOOKS ∧ b = t := by
              simpa using ht
            simp only [Option.some.injEq, Bool.and_eq_true, decide_eq_true_eq]
            exact ⟨⟨hsr, hrange.mpr hall⟩, by rw [hbt]; simpa using hratio⟩
  · rw [if_pos (by simpa using ha)]
    refine iff_of_false (by simp) ?_
    rintro ⟨-, t, ht, -⟩
    obtain ⟨ha2, -⟩ : a = N_COARSE_CODEBOOKS ∧ b = t := by
      simpa using ht
    exact ha ha2

/-! ## Claim C7 -/

/-- The validity condition exactly as claim C7 words it: semantic 1-D with
values in range, coarse of shape (N_COARSE_CODEBOOKS, T) in range, fine of
shape (N_FINE_CODEBOOKS, T) with the same T, in range. -/
def c7SpecValid (s c f : NpArray) : Prop :=
  (s.ndim = 1 ∧ ∀ x ∈ s.data, 0 ≤ x ∧ x < SEMANTIC_VOCAB_SIZE) ∧
  (∃ t, c.shape = [N_COARSE_CODEBOOKS, t] ∧ f.shape = [N_FINE_CODEBOOKS, t]) ∧
  (∀ x ∈ c.data, 0 ≤ x ∧ x < CODEBOOK_SIZE) ∧
  (∀ x ∈ f.data, 0 ≤ x ∧ x < CODEBOOK_SIZE)

/-- The validity condition actually implemented: the claim's conditions
plus nonemptiness of every array and the coarse-to-semantic length ratio
check, and without any tie between the fine and coarse widths. -/
def c7AmendedValid (s c f : NpArray) : Prop :=
  (s.ndim = 1 ∧ s.data ≠ [] ∧ ∀ x ∈ s.data, 0 ≤ x ∧ x < SEMANTIC_VOCAB_SIZE) ∧
  (∃ t, c.shape = [N_COARSE_CODEBOOKS, t] ∧ 0 < t ∧
    (∀ x ∈ c.data, 0 ≤ x ∧ x < CODEBOOK_SIZE) ∧
    roundHalfEvenTenths t (s.shape.headD 0) = expectedRatioTenths) ∧
  (∃ t, f.shape = [N_FINE_CODEBOOKS, t] ∧ 0 < t ∧
    ∀ x ∈ f.data, 0 ≤ x ∧ x < CODEBOOK_SIZE)

/-- Claim C7 is false as stated: this well-typed bundle satisfies every
condition of the claim (semantic 1-D in range, coarse (2,1), fine (8,1)
with the same width, all values in range), yet the validator reports it
invalid, because the coarse width to semantic length ratio 1.0 is not the
documented 1.5. -/
theorem c7_counterexample :
    c7SpecValid ⟨[1], [0]⟩ ⟨[2, 1], [0, 0]⟩
        ⟨[8, 1], [0, 0, 0, 0, 0, 0, 0, 0]⟩ ∧
      (NpArray.mk [1] [0]).WF ∧ (NpArray.mk [2, 1] [0, 0]).WF ∧
      (NpArray.mk [8, 1] [0, 0, 0, 0, 0, 0, 0, 0]).WF ∧
      history_prompt_is_valid
        ⟨some ⟨[1], [0]⟩, some ⟨[2, 1], [0, 0]⟩,
         some ⟨[8, 1], [0, 0, 0, 0, 0, 0, 0, 0]⟩⟩ ≠ .ok true := by
  refine ⟨⟨⟨rfl, by decide⟩, ⟨1, rfl, rfl⟩, by decide, by decide⟩,
    by decide, by decide, by decide, by decide⟩

/-- Claim C7, amended: for every well-typed (well-formed) bundle the
validator returns true iff the semantic array is 1-D, nonempty and in
range, the coarse array is (N_COARSE_CODEBOOKS, T) with T positive,
values in range and the rounded ratio T / len(semantic) equal to the
documented 1.5, and the fine array is (N_FINE_CODEBOOKS, T') with T'
positive and values in range (T' independent of T). -/
theorem c7_amended (s c f : NpArray) (hs : s.WF) (hc : c.WF) (hf : f.WF) :
    history_prompt_is_valid ⟨some s, some c, some f⟩ = .ok true ↔
      c7AmendedValid s c f := by
  unfold history_prompt_is_valid load_history_prompt c7AmendedValid
  simp only []
  cases hcr : generate_coarse_report s c with
  | none =>
    refine iff_of_false (by simp) ?_
    rintro ⟨⟨hnd, hne, -⟩, -, -⟩
    obtain ⟨h2, hh, hz, hhead⟩ := (coarse_report_raises_iff s c).mp hcr
    rcases hsh : s.shape with - | ⟨n, rest⟩
    · rw [NpArray.ndim, hsh] at hnd; simp at hnd
    · rw [hsh] at hhead
      simp only [List.headD_cons] at hhead
      have hlen : s.data.length = 0 := by
        rcases rest with - | ⟨m, r2⟩
        · simpa [NpArray.WF, hsh, hhead] using hs
        · rw [NpArray.ndim, hsh] at hnd; simp at hnd
      exact hne (List.length_eq_zero.mp hlen)
  | some cr =>
    simp only [ValidOutcome.ok.injEq, Bool.and_eq_true]
    constructor
    · rintro ⟨⟨hsem, hcoarse⟩, hfine⟩
      subst hcoarse
      obtain ⟨-, hcc⟩ := (coarse_report_true_iff s c hc).mp hcr
      exact ⟨(semantic_report_true_iff s hs).mp hsem, hcc,
        (fine_report_true_iff f hf).mp hfine⟩
    · rintro ⟨hsem, hcc, hff⟩
      have hsem' := (semantic_report_true_iff s hs).mpr hsem
      have hcr' := (coarse_report_true_iff s c hc).mpr ⟨hsem', hcc⟩
      rw [hcr] at hcr'
      exact ⟨⟨hsem', (Option.some.injEq _ _ ▸ hcr').symm ▸ rfl⟩,
        (fine_report_true_iff f hf).mpr hff⟩

/-- Witness: the amended C7 equivalence applied to a concrete bundle with
semantic length 10 and coarse width 15 (ratio 1.5). -/
theorem c7_amended_witness :
    history_prompt_is_valid
      ⟨some ⟨[10], [0, 1, 2, 3, 4, 5, 6, 7, 8, 9]⟩,
       some ⟨[2, 15], List.replicate 30 0⟩,
       some ⟨[8, 2], List.replicate 16 0⟩⟩ = .ok true :=
  (c7_amended ⟨[10], [0, 1, 2, 3, 4, 5, 6, 7, 8, 9]⟩
      ⟨[2, 15], List.replicate 30 0⟩ ⟨[8, 2], List.replicate 16 0⟩
      (by decide) (by decide) (by decide)).mpr
    ⟨⟨rfl, by decide, by decide⟩,
     ⟨15, rfl, by decide, by decide, by decide⟩,
     ⟨2, rfl, by decide, by decide⟩⟩

/-! ## Claim C9 -/

/-- Claim C9 is false as stated: this bundle is invalid but well-typed
(a well-formed empty 1-D semantic array together with a well-shaped
coarse array), and the validator raises instead of returning a report:
the ratio line divides by the zero semantic length. -/
theorem c9_counterexample :
    (NpArray.mk [0] []).WF ∧ (NpArray.mk [2, 1] [0, 0]).WF ∧
      (NpArray.mk [8, 1] [0, 0, 0, 0, 0, 0, 0, 0]).WF ∧
      history_prompt_is_valid
        ⟨some ⟨[0], []⟩, some ⟨[2, 1], [0, 0]⟩,
         some ⟨[8, 1], [0, 0, 0, 0, 0, 0, 0, 0]⟩⟩ = .raised := by
  refine ⟨by decide, by decide, by decide, by decide⟩

/-- Claim C9, amended: for well-typed bundles with all three keys present
the validator returns a report without raising, except exactly when the
coarse array passes its structural checks (2-D, N_COARSE_CODEBOOKS rows,
nonempty) while the semantic array has no positive leading dimension
(0-d, or first dimension zero) — there the ratio computation divides by
the semantic length and raises.  A dict missing any of the three keys
makes the load fail; that failure is caught and None is returned, not a
raise. -/
theorem c9_amended :
    (∀ s c f : NpArray,
      history_prompt_is_valid ⟨some s, some c, some f⟩ = .raised ↔
        c.ndim = 2 ∧ c.shape.headD 0 = N_COARSE_CODEBOOKS ∧ c.size ≠ 0 ∧
          s.shape.headD 0 = 0) ∧
    (∀ d : PromptDict,
      d.semantic_prompt = none ∨ d.coarse_prompt = none ∨
          d.fine_prompt = none →
        history_prompt_is_valid d = .returnedNone) := by
  constructor
  · intro s c f
    unfold history_prompt_is_valid load_history_prompt
    simp only []
    cases hcr : generate_coarse_report s c with
    | none =>
      exact iff_of_true rfl ((coarse_report_raises_iff s c).mp hcr)
    | some cr =>
      refine iff_of_false (by simp) ?_
      intro hcond
      rw [(coarse_report_raises_iff s c).mpr hcond] at hcr
      exact Option.noConfusion hcr
  · rintro ⟨ds, dc, df⟩ h
    cases ds <;> cases dc <;> cases df <;>
      first
        | rfl
        | (exfalso; rcases h with h | h | h <;> exact Option.noConfusion h)

/-- Witness: the amended C9 characterisation applied to a 0-d semantic
array (numpy len raises a TypeError there) with a well-shaped coarse
array. -/
theorem c9_amended_witness :
    history_prompt_is_valid
      ⟨some ⟨[], [5]⟩, some ⟨[2, 3], [0, 0, 0, 0, 0, 0]⟩,
       some ⟨[8, 1], [0, 0, 0, 0, 0, 0, 0, 0]⟩⟩ = .raised :=
  (c9_amended.1 ⟨[], [5]⟩ ⟨[2, 3], [0, 0, 0, 0, 0, 0]⟩
    ⟨[8, 1], [0, 0, 0, 0, 0, 0, 0, 0]⟩).mpr (by decide)

/-! ## Claim C4 -/

/-- The file name with its implicit extension, as built at api.py:242-246. -/
def resolvedName (u : String) : String :=
  (pySplitext u).1 ++
    (if (pySplitext u).2 = "" then ".npz" else (pySplitext u).2)

/-- The directory loop of `process_history_prompt` keeps the hit of the
last directory that contains the file. -/
theorem foldl_hit_eq_find_reverse (fsExists : String → Bool) (full : String) :
    ∀ (dirs : List String) (init : Option String),
      dirs.foldl (fun acc d =>
          let p := pyJoin d full
          if fsExists p then some p else acc) init =
        match dirs.reverse.find? (fun d => fsExists (pyJoin d full)) with
        | some d => some (pyJoin d full)
        | none => init := by
  intro dirs
  induction dirs with
  | nil => intro init; rfl
  | cons d ds ih =>
    intro init
    rw [List.foldl_cons, ih, List.reverse_cons, List.find?_append]
    cases hf : ds.reverse.find? (fun d0 => fsExists (pyJoin d0 full)) with
    | some d' => simp [Option.or]
    | none =>
      simp only [Option.or, List.find?]
      cases hd : fsExists (pyJoin d full) <;> simp [hd]

/-- Claim C4 is false as stated: with two configured directories both
containing the bundle, resolution returns the path from the second (last)
directory, not the first. -/
theorem c4_counterexample :
    process_history_prompt (fun s => s == "d1/v.npz" || s == "d2/v.npz")
        (fun _ => true) ["d1", "d2"] (some "v") = some "d2/v.npz" ∧
      ("d2/v.npz" : String) ≠ "d1/v.npz" := by
  exact ⟨by decide, by decide⟩

/-- Claim C4, amended: for a bare name (no directory component), when at
least one configured directory contains the named file with the implicit
extension, resolution returns the path from the LAST directory in the
configured list that contains it (the loop overwrites earlier hits
without breaking). -/
theorem c4_amended (fsExists validAt : String → Bool) (dirs : List String)
    (u : String) (hbare : pyDirname (resolvedName u) = "")
    (hval : ∀ p, validAt p = true)
    (hhit : ∃ d ∈ dirs, fsExists (pyJoin d (resolvedName u)) = true) :
    ∃ d', dirs.reverse.find?
        (fun d0 => fsExists (pyJoin d0 (resolvedName u))) = some d' ∧
      process_history_prompt fsExists validAt dirs (some u) =
        some (pyJoin d' (resolvedName u)) := by
  obtain ⟨d, hd, hex⟩ := hhit
  have hsome : (dirs.reverse.find?
      (fun d0 => fsExists (pyJoin d0 (resolvedName u)))).isSome := by
    rw [List.find?_isSome]
    exact ⟨d, List.mem_reverse.mpr hd, hex⟩
  obtain ⟨d', hd'⟩ := Option.isSome_iff_exists.mp hsome
  refine ⟨d', hd', ?_⟩
  unfold process_history_prompt
  simp only []
  rw [if_neg (fun hcon => hcon hbare)]
  have hfold := foldl_hit_eq_find_reverse fsExists (resolvedName u) dirs none
  rw [show ((pySplitext u).1 ++
      (if (pySplitext u).2 = "" then ".npz" else (pySplitext u).2)) =
      resolvedName u from rfl] at *
  rw [hfold, hd']
  simp [hval]

/-- Witness for the amended C4: one directory containing the file. -/
theorem c4_amended_witness :
    ∃ d', (["dir1"] : List String).reverse.find?
        (fun d0 => (fun s => s == "dir1/spk.npz") (pyJoin d0 (resolvedName "spk"))) = some d' ∧
      process_history_prompt (fun s => s == "dir1/spk.npz") (fun _ => true)
        ["dir1"] (some "spk") = some (pyJoin d' (resolvedName "spk")) :=
  c4_amended (fun s => s == "dir1/spk.npz") (fun _ => true) ["dir1"] "spk"
    (by decide) (fun _ => rfl) ⟨"dir1", by decide, by decide⟩

/-! ## Claim C8: injectivity of the suffix candidates -/

theorem decDigitsAux_eq : ∀ (n fuel : Nat), n ≤ fuel →
    decDigitsAux fuel n = ((Nat.digits 10 n).map digitCharOf).reverse := by
  intro n
  induction n using Nat.strong_induction_on with
  | _ n ih =>
    intro fuel hf
    match n, fuel with
    | 0, 0 => simp [decDigitsAux]
    | 0, fuel + 1 => simp [decDigitsAux]
    | n + 1, fuel + 1 =>
      rw [decDigitsAux]
      have hdiv : (n + 1) / 10 < n + 1 := Nat.div_lt_self (by omega) (by omega)
      rw [ih ((n + 1) / 10) hdiv fuel (by omega)]
      rw [Nat.digits_def' (by norm_num) (Nat.succ_pos n)]
      simp

theorem digits_ten_injective : Function.Injective (Nat.digits 10) := by
  intro m n h
  rw [← Nat.ofDigits_digits 10 m, ← Nat.ofDigits_digits 10 n, h]

theorem digitCharOf_inj {d1 d2 : Nat} (h1 : d1 < 10) (h2 : d2 < 10)
    (h : digitCharOf d1 = digitCharOf d2) : d1 = d2 := by
  interval_cases d1 <;> interval_cases d2 <;>
    first
      | rfl
      | (exact absurd h (by decide))

theorem map_digitCharOf_inj : ∀ {l1 l2 : List Nat},
    (∀ x ∈ l1, x < 10) → (∀ x ∈ l2, x < 10) →
    l1.map digitCharOf = l2.map digitCharOf → l1 = l2 := by
  intro l1
  induction l1 with
  | nil =>
    intro l2 h1 h2 h
    cases l2 with
    | nil => rfl
    | cons y ys => simp at h
  | cons x xs ih =>
    intro l2 h1 h2 h
    cases l2 with
    | nil => simp at h
    | cons y ys =>
      simp only [List.map_cons, List.cons.injEq] at h
      have hx := digitCharOf_inj (h1 x (List.mem_cons_self x xs))
        (h2 y (List.mem_cons_self y ys)) h.1
      rw [hx, ih (fun z hz => h1 z (List.mem_cons_of_mem x hz))
        (fun z hz => h2 z (List.mem_cons_of_mem y hz)) h.2]

theorem natToDec_zero_ne (n : Nat) (hn : n ≠ 0) :
    ("0" : String) ≠ (⟨decDigitsAux n n⟩ : String) := by
  intro h
  have hdata : ("0" : String).data = decDigitsAux n n :=
    congrArg String.data h
  rw [decDigitsAux_eq n n le_rfl] at hdata
  have hmap : (Nat.digits 10 n).map digitCharOf = ['0'] := by
    have hr := congrArg List.reverse hdata
    simpa using hr.symm
  have hdig : Nat.digits 10 n = [0] := by
    apply map_digitCharOf_inj
      (fun x hx => Nat.digits_lt_base (by norm_num) hx)
      (by intro x hx; simp at hx; omega)
    rw [hmap]
    decide
  have hofd := Nat.ofDigits_digits 10 n
  rw [hdig] at hofd
  simp [Nat.ofDigits] at hofd
  omega

theorem natToDec_injective : Function.Injective natToDec := by
  intro m n h
  unfold natToDec at h
  have digits_eq_of_mk :
      ∀ a b : Nat, (⟨decDigitsAux a a⟩ : String) = ⟨decDigitsAux b b⟩ →
        a = b := by
    intro a b hab
    have hdata : decDigitsAux a a = decDigitsAux b b :=
      congrArg String.data hab
    rw [decDigitsAux_eq a a le_rfl, decDigitsAux_eq b b le_rfl] at hdata
    have hrev := List.reverse_injective hdata
    exact digits_ten_injective (map_digitCharOf_inj
      (fun x hx => Nat.digits_lt_base (by norm_num) hx)
      (fun x hx => Nat.digits_lt_base (by norm_num) hx) hrev)
  by_cases hm : m = 0 <;> by_cases hn : n = 0
  · omega
  · exfalso
    rw [if_pos hm, if_neg hn] at h
    exact natToDec_zero_ne n hn h
  · exfalso
    rw [if_neg hm, if_pos hn] at h
    exact natToDec_zero_ne m hm h.symm
  · rw [if_neg hm, if_neg hn] at h
    exact digits_eq_of_mk m n h

theorem suffixCandidate_inj (p : String) {j k : Nat}
    (h : suffixCandidate p j = suffixCandidate p k) : j = k := by
  unfold suffixCandidate at h
  have hdata := congrArg String.data h
  rw [String.data_append, String.data_append, String.data_append,
    String.data_append, String.data_append, String.data_append] at hdata
  have h1 := List.append_cancel_right hdata
  have h2 := List.append_cancel_left h1
  exact natToDec_injective (String.ext h2)

/-! ## Claim C8: the allocation loop -/

theorem uniqueLoop_stops (g : String → Bool) (name ext cur : String)
    (c fuel : Nat) (h : g cur = false) :
    uniqueLoop g name ext c cur fuel = cur := by
  cases fuel with
  | zero => rfl
  | succ f => rw [uniqueLoop, if_neg (by rw [h]; exact Bool.false_ne_true)]

/-- The k-th candidate built with explicit name and extension. -/
def mkCand (name ext : String) (k : Nat) : String :=
  name ++ "_" ++ natToDec k ++ ext

theorem uniqueLoop_run (g : String → Bool) (name ext : String) :
    ∀ (j c : Nat) (cur : String) (fuel : Nat),
      g cur = true →
      (∀ i, c ≤ i → i < c + j → g (mkCand name ext i) = true) →
      g (mkCand name ext (c + j)) = false →
      j + 1 ≤ fuel →
      uniqueLoop g name ext c cur fuel = mkCand name ext (c + j) := by
  intro j
  induction j with
  | zero =>
    intro c cur fuel hcur hall hnone hfuel
    match fuel, hfuel with
    | fuel + 1, _ =>
      rw [uniqueLoop, if_pos hcur]
      exact uniqueLoop_stops g name ext _ _ _ (by simpa using hnone)
  | succ j ih =>
    intro c cur fuel hcur hall hnone hfuel
    match fuel, hfuel with
    | fuel + 1, hfuel =>
      rw [uniqueLoop, if_pos hcur]
      have hres := ih (c + 1) (mkCand name ext c) fuel
        (hall c le_rfl (by omega))
        (fun i hi1 hi2 => hall i (by omega) (by omega))
        (by rw [show c + 1 + j = c + (j + 1) from by omega]; exact hnone)
        (by omega)
      rw [show (name ++ "_" ++ natToDec c ++ ext) = mkCand name ext c
        from rfl]
      rw [hres, show c + 1 + j = c + (j + 1) from by omega]

theorem mkCand_suffixCandidate (p : String) (k : Nat) :
    mkCand (pySplitext p).1 (pySplitext p).2 k = suffixCandidate p k := rfl

/-- The state of the filesystem after j allocations, and the paths
returned so far. -/
theorem allocRuns_spec (sanitize : String → String) (fs0 : String → Bool)
    (p : String) (N fuel : Nat)
    (hbase : fs0 (sanitize p) = true)
    (hfresh : ∀ k, 1 ≤ k → k ≤ N → fs0 (suffixCandidate p k) = false)
    (hfuel : N + 1 ≤ fuel) :
    ∀ j, j ≤ N →
      (allocRuns sanitize fs0 fuel p j).1 =
          (List.range j).map (fun t => suffixCandidate p (t + 1)) ∧
        ∀ s, (allocRuns sanitize fs0 fuel p j).2 s =
          (fs0 s || (List.range j).any (fun t => s == suffixCandidate p (t + 1))) := by
  intro j
  induction j with
  | zero => intro _; exact ⟨rfl, fun s => by simp [allocRuns]⟩
  | succ j ih =>
    intro hj
    obtain ⟨ihret, ihfs⟩ := ih (by omega)
    have hg : (allocRuns sanitize fs0 fuel p j).2 (sanitize p) = true := by
      rw [ihfs]; rw [hbase]; rfl
    have hprev : ∀ i, 1 ≤ i → i < 1 + j →
        (allocRuns sanitize fs0 fuel p j).2 (suffixCandidate p i) = true := by
      intro i hi1 hi2
      rw [ihfs]
      have : (List.range j).any
          (fun t => suffixCandidate p i == suffixCandidate p (t + 1)) = true := by
        rw [List.any_eq_true]
        exact ⟨i - 1, List.mem_range.mpr (by omega),
          by rw [show i - 1 + 1 = i from by omega]; exact beq_self_eq_true _⟩
      rw [this, Bool.or_true]
    have hnew : (allocRuns sanitize fs0 fuel p j).2
        (suffixCandidate p (1 + j)) = false := by
      rw [ihfs]
      have h1 : fs0 (suffixCandidate p (1 + j)) = false :=
        hfresh (1 + j) (by omega) (by omega)
      have h2 : (List.range j).any
          (fun t => suffixCandidate p (1 + j) == suffixCandidate p (t + 1)) = false := by
        rw [Bool.eq_false_iff]
        intro hcon
        rw [List.any_eq_true] at hcon
        obtain ⟨t, ht, hbeq⟩ := hcon
        have := suffixCandidate_inj p (eq_of_beq hbeq)
        rw [List.mem_range] at ht
        omega
      rw [h1, h2]
      rfl
    have hcall : generate_unique_filepath sanitize
        (allocRuns sanitize fs0 fuel p j).2 fuel p = suffixCandidate p (j + 1) := by
      unfold generate_unique_filepath
      have := uniqueLoop_run (allocRuns sanitize fs0 fuel p j).2
        (pySplitext p).1 (pySplitext p).2 j 1 (sanitize p) fuel hg
        (fun i hi1 hi2 => by
          rw [mkCand_suffixCandidate]; exact hprev i hi1 hi2)
        (by rw [mkCand_suffixCandidate]; exact hnew)
        (by omega)
      rw [this, mkCand_suffixCandidate,
        show 1 + j = j + 1 from by omega]
    constructor
    · show (allocRuns sanitize fs0 fuel p j).1 ++ [_] = _
      rw [ihret, hcall, List.range_succ, List.map_append]
      rfl
    · intro s
      show ((allocRuns sanitize fs0 fuel p j).2 s ||
          (s == generate_unique_filepath sanitize
            (allocRuns sanitize fs0 fuel p j).2 fuel p)) = _
      rw [hcall, ihfs, List.range_succ, List.any_append, Bool.or_assoc]
      simp [List.any_cons]

/-- Claim C8: N successive allocations for the same base path (each
returned path created before the next call) return exactly the
candidates suffixed _1 .. _N in order; they are pairwise distinct and
each did not exist at the moment it was returned; and a call whose
(sanitized) argument does not exist returns it unchanged. -/
theorem c8_unique_paths (sanitize : String → String) (fs0 : String → Bool)
    (p : String) (N fuel : Nat)
    (hbase : fs0 (sanitize p) = true)
    (hfresh : ∀ k, 1 ≤ k → k ≤ N → fs0 (suffixCandidate p k) = false)
    (hfuel : N + 1 ≤ fuel) :
    ((allocRuns sanitize fs0 fuel p N).1 =
        (List.range N).map (fun t => suffixCandidate p (t + 1))) ∧
      (allocRuns sanitize fs0 fuel p N).1.Nodup ∧
      (∀ j, j < N →
        (allocRuns sanitize fs0 fuel p j).2 (suffixCandidate p (j + 1)) = false) ∧
      (∀ (g : String → Bool) (q : String) (fl : Nat),
        g (sanitize q) = false →
        generate_unique_filepath sanitize g fl q = sanitize q) := by
  have hspec := allocRuns_spec sanitize fs0 p N fuel hbase hfresh hfuel
  obtain ⟨hret, hfs⟩ := hspec N le_rfl
  refine ⟨hret, ?_, ?_, ?_⟩
  · rw [hret]
    refine List.Nodup.map ?_ (List.nodup_range N)
    intro a b hab
    have := suffixCandidate_inj p hab
    omega
  · intro j hj
    obtain ⟨-, hfsj⟩ := hspec j (by omega)
    rw [hfsj]
    have h1 : fs0 (suffixCandidate p (j + 1)) = false :=
      hfresh (j + 1) (by omega) (by omega)
    have h2 : (List.range j).any
        (fun t => suffixCandidate p (j + 1) == suffixCandidate p (t + 1)) = false := by
      rw [Bool.eq_false_iff]
      intro hcon
      rw [List.any_eq_true] at hcon
      obtain ⟨t, ht, hbeq⟩ := hcon
      have := suffixCandidate_inj p (eq_of_beq hbeq)
      rw [List.mem_range] at ht
      omega
    rw [h1, h2]
    rfl
  · intro g q fl hq
    unfold generate_unique_filepath
    exact uniqueLoop_stops g _ _ _ _ _ hq

/-- Witness: two allocations for an existing path return out_1.wav then
out_2.wav. -/
theorem c8_unique_paths_witness :
    (allocRuns id (fun s => s == "out.wav") 3 "out.wav" 2).1 =
      ["out_1.wav", "out_2.wav"] := by
  have h := c8_unique_paths id (fun s => s == "out.wav") "out.wav" 2 3
    (by decide)
    (by intro k h1 h2; interval_cases k <;> decide)
    (by omega)
  rw [h.1]
  decide

/-! ## Claims C3 and C10: cancellation in the per-segment pipeline -/

/-- If the cancellation flag is first seen true at poll point t, the
pipeline returns the (None, None) pair having run exactly the stages
before that poll. -/
theorem barki_cancelled_eq {S C F A : Type}
    (flag : Nat → Bool) (history : Option (S × C × F))
    (sho : Bool) (pst : String) (asho : Bool) (aex : Option Int)
    (segn : Option Int) (output_full hoarder : Bool) (tot : Int)
    (semGen : Option (S × C × F) → S) (coarseGen : S → Option (S × C × F) → C)
    (fineGen : C → Option (S × C × F) → F) (decode : F → A)
    (t : Nat) (ht : t ≤ 5) (hflag : flag t = true)
    (hbefore : ∀ u, u < t → flag u = false) :
    generate_audio_barki flag history sho pst asho aex segn output_full
        hoarder tot semGen coarseGen fineGen decode =
      (.cancelledPair, stagesBefore t) := by
  interval_cases t
  · simp [generate_audio_barki, hflag, stagesBefore]
  · have h0 : flag 0 = false := hbefore 0 (by omega)
    simp [generate_audio_barki, h0, hflag, stagesBefore]
  · have h0 : flag 0 = false := hbefore 0 (by omega)
    have h1 : flag 1 = false := hbefore 1 (by omega)
    simp [generate_audio_barki, h0, h1, hflag, stagesBefore]
  · have h0 : flag 0 = false := hbefore 0 (by omega)
    have h1 : flag 1 = false := hbefore 1 (by omega)
    have h2 : flag 2 = false := hbefore 2 (by omega)
    simp [generate_audio_barki, h0, h1, h2, hflag, stagesBefore]
  · have h0 : flag 0 = false := hbefore 0 (by omega)
    have h1 : flag 1 = false := hbefore 1 (by omega)
    have h2 : flag 2 = false := hbefore 2 (by omega)
    have h3 : flag 3 = false := hbefore 3 (by omega)
    simp [generate_audio_barki, h0, h1, h2, h3, hflag, stagesBefore]
  · have h0 : flag 0 = false := hbefore 0 (by omega)
    have h1 : flag 1 = false := hbefore 1 (by omega)
    have h2 : flag 2 = false := hbefore 2 (by omega)
    have h3 : flag 3 = false := hbefore 3 (by omega)
    have h4 : flag 4 = false := hbefore 4 (by omega)
    simp [generate_audio_barki, h0, h1, h2, h3, h4, hflag, stagesBefore]

/-- With the flag never raised the pipeline completes and, called with
output_full set, returns the full pair. -/
theorem barki_no_cancel_isFull {S C F A : Type}
    (flag : Nat → Bool) (history : Option (S × C × F))
    (sho : Bool) (pst : String) (asho : Bool) (aex : Option Int)
    (segn : Option Int) (hoarder : Bool) (tot : Int)
    (semGen : Option (S × C × F) → S) (coarseGen : S → Option (S × C × F) → C)
    (fineGen : C → Option (S × C × F) → F) (decode : F → A)
    (hflag : ∀ u, flag u = false) :
    ∃ b a, (generate_audio_barki flag history sho pst asho aex segn true
        hoarder tot semGen coarseGen fineGen decode).1 = .fullPair b a := by
  simp only [generate_audio_barki, hflag 0, hflag 1, hflag 2, hflag 3,
    hflag 4, hflag 5, Bool.false_eq_true, if_false]
  rw [if_pos trivial]
  exact ⟨_, _, rfl⟩

/-- Claim C10: whenever cancellation is detected at any poll point, the
per-segment function returns the 2-tuple (None, None) even when
output_full is false, i.e. the caller never receives the single audio
array it would receive on success. -/
theorem c10_cancel_returns_pair {S C F A : Type}
    (flag : Nat → Bool) (history : Option (S × C × F))
    (sho : Bool) (pst : String) (asho : Bool) (aex : Option Int)
    (segn : Option Int) (hoarder : Bool) (tot : Int)
    (semGen : Option (S × C × F) → S) (coarseGen : S → Option (S × C × F) → C)
    (fineGen : C → Option (S × C × F) → F) (decode : F → A)
    (t : Nat) (ht : t ≤ 5) (hflag : flag t = true)
    (hbefore : ∀ u, u < t → flag u = false) :
    (generate_audio_barki flag history sho pst asho aex segn false hoarder
        tot semGen coarseGen fineGen decode).1 = .cancelledPair ∧
      ∀ a : A, (generate_audio_barki flag history sho pst asho aex segn
        false hoarder tot semGen coarseGen fineGen decode).1 ≠ .audioOnly a := by
  rw [barki_cancelled_eq flag history sho pst asho aex segn false hoarder
    tot semGen coarseGen fineGen decode t ht hflag hbefore]
  exact ⟨rfl, fun a h => BarkiRet.noConfusion h⟩

/-- Witness: C10 at the poll point after semantic generation. -/
theorem c10_cancel_returns_pair_witness :
    (generate_audio_barki (S := Nat) (C := Nat) (F := Nat) (A := Nat)
        (fun u => u == 1) none false "" false none none false false 1
        (fun _ => 0) (fun _ _ => 0) (fun _ _ => 0) (fun _ => 0)).1 =
      .cancelledPair :=
  (c10_cancel_returns_pair (fun u => u == 1) none false "" false none none
    false 1 (fun _ => 0) (fun _ _ => 0) (fun _ _ => 0) (fun _ => 0)
    1 (by omega) (by decide) (by intro u hu; interval_cases u <;> decide)).1

/-! ## Controller lemmas -/

/-- With a clamped (nonnegative) interval the stability bookkeeping never
takes the fatal fall-through branch. -/
theorem stabilityUpdate_isSome {B : Type} (interval : Int)
    (hint : 0 ≤ interval) (st : LongState B) (full : B) :
    (stabilityUpdate interval st full).isSome := by
  unfold stabilityUpdate
  by_cases h0 : interval = 0
  · simp [h0]
  · by_cases h1 : interval = 1
    · simp [h0, h1]
    · have h2 : 2 ≤ interval := by omega
      rw [if_neg h0, if_neg h1, if_pos h2]
      split
      · split <;> rfl
      · split <;> rfl

/-- The stability bookkeeping never touches the pending kwargs
conditioning. -/
theorem stabilityUpdate_kwargsHistory {B : Type} (interval : Int)
    (st st2 : LongState B) (full : B)
    (h : stabilityUpdate interval st full = some st2) :
    st2.kwargsHistory = st.kwargsHistory := by
  simp only [stabilityUpdate] at h
  generalize hst1 :
    (if st.base.isNone then { st with base := some full } else st) = st1 at h
  have hk : st1.kwargsHistory = st.kwargsHistory := by
    rw [← hst1]; split <;> rfl
  by_cases h0 : interval = 0
  · rw [if_pos h0] at h; cases h; exact hk
  · rw [if_neg h0] at h
    by_cases h1 : interval = 1
    · rw [if_pos h1] at h; cases h; exact hk
    · rw [if_neg h1] at h
      by_cases h2 : 2 ≤ interval
      · rw [if_pos h2] at h
        by_cases hc : st1.counter = some 1
        · rw [if_pos hc] at h; cases h; exact hk
        · rw [if_neg hc] at h; cases h; exact hk
      · rw [if_neg h2] at h
        exact Option.noConfusion h

/-- If the pipeline succeeds for every segment before i0 and is cancelled
at segment i0, the segment loop aborts: it reports failure and discards
the accumulated bundles and audio. -/
theorem longLoop_abort {B A : Type} (pipeline : Nat → Option B → Option (B × A))
    (interval : Int) (hint : 0 ≤ interval) (sep flip : Bool)
    (silence : Option A) (i0 : Nat)
    (hpipe0 : ∀ j h, j < i0 → (pipeline j h).isSome)
    (hpipei : ∀ h, pipeline i0 h = none) :
    ∀ (rem i : Nat) (st : LongState B) (bs : List B) (auds : List A)
      (cs rs : List (Option B)) (ks : List (Option Int)),
      i ≤ i0 → i0 < i + rem →
      (longLoop pipeline (fun _ => false) interval sep flip false silence
          i rem st bs auds cs rs ks).ok = false ∧
      (longLoop pipeline (fun _ => false) interval sep flip false silence
          i rem st bs auds cs rs ks).bundles = [] ∧
      (longLoop pipeline (fun _ => false) interval sep flip false silence
          i rem st bs auds cs rs ks).audioSegs = [] := by
  intro rem
  induction rem with
  | zero => intro i st bs auds cs rs ks h1 h2; omega
  | succ rem ih =>
    intro i st bs auds cs rs ks h1 h2
    simp only [longLoop, Bool.false_eq_true, if_false]
    rcases Nat.lt_or_ge i i0 with hlt | hge
    · obtain ⟨fa, hfa⟩ := Option.isSome_iff_exists.mp
        (hpipe0 i (policyStep sep flip st).kwargsHistory hlt)
      rw [hfa]
      dsimp only
      obtain ⟨st2, hst2⟩ := Option.isSome_iff_exists.mp
        (stabilityUpdate_isSome interval hint (policyStep sep flip st) fa.1)
      rw [hst2]
      dsimp only
      exact ih (i + 1) st2 _ _ _ _ _ (by omega) (by omega)
    · have hi : i = i0 := by omega
      subst hi
      rw [hpipei (policyStep sep flip st).kwargsHistory]
      dsimp only
      exact ⟨rfl, rfl, rfl⟩

/-- An aborted segment loop makes the whole run return the all-None
result with no write event added. -/
theorem longFinish_abort_conc {B A : Type} (dryRun finalCancel : Bool)
    (evs : List LongEvent) (lp : LoopOut B A)
    (h : lp.ok = false) (hevs : LongEvent.wroteFinal ∉ evs) :
    (longFinish dryRun finalCancel evs lp).out = none ∧
      LongEvent.wroteFinal ∉ (longFinish dryRun finalCancel evs lp).events := by
  unfold longFinish
  rw [if_pos (by rw [h])]
  exact ⟨rfl, hevs⟩

/-- The per-segment pipeline exactly as the controller invokes it:
`generate_audio_barki` with output_full set and the 1-based segment
number, collapsed to the (bundle, audio) pair, `none` on the
(None, None) cancellation return. -/
def barkiPipeline {S C F A : Type} (flags : Nat → Nat → Bool)
    (sho : Bool) (pst : String) (asho : Bool) (aex : Option Int)
    (hoarder : Bool) (tot : Int)
    (semGen : Option (S × C × F) → S) (coarseGen : S → Option (S × C × F) → C)
    (fineGen : C → Option (S × C × F) → F) (decode : F → A) :
    Nat → Option (S × C × F) → Option ((S × C × F) × A) := fun i h =>
  match (generate_audio_barki (flags i) h sho pst asho aex
      (some ((i : Int) + 1)) true hoarder tot semGen coarseGen
      fineGen decode).1 with
  | .fullPair b a => some (b, a)
  | _ => none

/-- Claim C3: if the shared cancellation flag is first set at poll point t
of segment i0 (having been clear for all earlier segments), then (a) that
segment's pipeline call returns the cancelled (None, None) result having
run only the stages before the poll — no partial bundle or audio escapes;
and (b) the whole long-form run returns the all-None result, and the
final output artifact is never written. -/
theorem c3_cancellation {S C F A : Type}
    (fsExists validAt : String → Bool) (dirs : List String)
    (loadBundle : String → S × C × F) (history_prompt : Option String)
    (interval_opt : Option Int) (sep flip : Bool) (n : Nat)
    (flags : Nat → Nat → Bool) (finalCancel : Bool) (silence : Option A)
    (sho : Bool) (pst : String) (asho : Bool) (aex : Option Int)
    (hoarder : Bool) (tot : Int)
    (semGen : Option (S × C × F) → S) (coarseGen : S → Option (S × C × F) → C)
    (fineGen : C → Option (S × C × F) → F) (decode : F → A)
    (i0 : Nat) (hi0 : i0 < n)
    (t : Nat) (ht : t ≤ 5) (hflag : flags i0 t = true)
    (hbefore : ∀ u, u < t → flags i0 u = false)
    (hprev : ∀ j, j < i0 → ∀ u, flags j u = false) :
    (∀ h, generate_audio_barki (flags i0) h sho pst asho aex
        (some ((i0 : Int) + 1)) true hoarder tot semGen coarseGen fineGen
        decode = (.cancelledPair, stagesBefore t)) ∧
    (generate_audio_long fsExists validAt dirs loadBundle history_prompt
        interval_opt false false sep flip n
        (barkiPipeline flags sho pst asho aex hoarder tot semGen coarseGen
          fineGen decode)
        (fun _ => false) finalCancel silence).out = none ∧
    LongEvent.wroteFinal ∉
      (generate_audio_long fsExists validAt dirs loadBundle history_prompt
        interval_opt false false sep flip n
        (barkiPipeline flags sho pst asho aex hoarder tot semGen coarseGen
          fineGen decode)
        (fun _ => false) finalCancel silence).events := by
  have hbark : ∀ h, generate_audio_barki (flags i0) h sho pst asho aex
      (some ((i0 : Int) + 1)) true hoarder tot semGen coarseGen fineGen
      decode = (.cancelledPair, stagesBefore t) :=
    fun h => barki_cancelled_eq (flags i0) h sho pst asho aex
      (some ((i0 : Int) + 1)) true hoarder tot semGen coarseGen fineGen
      decode t ht hflag hbefore
  refine ⟨hbark, ?_⟩
  have hpipe0 : ∀ j h, j < i0 →
      ((barkiPipeline flags sho pst asho aex hoarder tot semGen coarseGen
        fineGen decode) j h).isSome := by
    intro j h hj
    obtain ⟨b, a, hba⟩ := barki_no_cancel_isFull (flags j) h sho pst asho aex
      (some ((j : Int) + 1)) hoarder tot semGen coarseGen fineGen decode
      (hprev j hj)
    unfold barkiPipeline
    rw [hba]
    rfl
  have hpipei : ∀ h,
      (barkiPipeline flags sho pst asho aex hoarder tot semGen coarseGen
        fineGen decode) i0 h = none := by
    intro h
    unfold barkiPipeline
    rw [show (generate_audio_barki (flags i0) h sho pst asho aex
      (some ((i0 : Int) + 1)) true hoarder tot semGen coarseGen fineGen
      decode).1 = .cancelledPair from by rw [hbark h]]
  set pipe := barkiPipeline flags sho pst asho aex hoarder tot semGen
    coarseGen fineGen decode with hpipe
  unfold generate_audio_long
  simp only [Bool.false_eq_true, if_false, ite_false]
  have hint : (0 : Int) ≤
      (if (interval_opt.getD 1) < 0 then 0 else interval_opt.getD 1) := by
    split <;> omega
  have habort := longLoop_abort pipe _ hint sep flip silence i0 hpipe0 hpipei
  cases history_prompt with
  | none =>
    dsimp only
    exact longFinish_abort_conc _ _ _ _
      ((habort n 0 _ [] [] [] [] [] (by omega) (by omega)).1) (by decide)
  | some name =>
    dsimp only
    cases hres : process_history_prompt fsExists validAt dirs (some name) with
    | none =>
      dsimp only
      exact ⟨rfl, by decide⟩
    | some path =>
      dsimp only
      exact longFinish_abort_conc _ _ _ _
        ((habort n 0 _ [] [] [] [] [] (by omega) (by omega)).1) (by decide)

/-- Witness: C3 with one segment, the flag set at the poll before the
coarse stage. -/
theorem c3_cancellation_witness :
    (generate_audio_long (B := Nat × Nat × Nat) (A := Nat)
        (fun _ => false) (fun _ => true) [] (fun _ => (0, 0, 0)) none
        none false false false false 1
        (barkiPipeline (fun _ u => u == 2) false "" false none false 1
          (fun _ => 0) (fun _ _ => 0) (fun _ _ => 0) (fun _ => 0))
        (fun _ => false) false none).out = none :=
  (c3_cancellation (fun _ => false) (fun _ => true) [] (fun _ => (0, 0, 0))
    none none false false 1 (fun _ u => u == 2) false none false "" false
    none false 1 (fun _ => 0) (fun _ _ => 0) (fun _ _ => 0) (fun _ => 0)
    0 (by omega) 2 (by omega) (by decide)
    (by intro u hu; interval_cases u <;> decide)
    (by intro j hj; omega)).2.1

/-! ## Claim C5: separate-prompts mode -/

/-- All long-run epilogues preserve the loop record. -/
theorem longFinish_loopOut {B A : Type} (d f : Bool) (e : List LongEvent)
    (lp : LoopOut B A) : (longFinish d f e lp).loopOut = lp := by
  unfold longFinish
  split
  · rfl
  · split
    · rfl
    · split <;> rfl

/-- In separate-prompts mode (no alternation) the loop never assigns the
kwargs conditioning, so every pipeline call receives the conditioning
the wrapper last stored — and the rolling conditioning is dropped at the
top of every iteration. -/
theorem longLoop_sep_conds {B A : Type} (gen : Nat → Option B → B)
    (aud : Nat → Option B → A) (interval : Int) (hint : 0 ≤ interval)
    (silence : Option A) :
    ∀ (rem i : Nat) (st : LongState B) (bs : List B) (auds : List A)
      (cs rs : List (Option B)) (ks : List (Option Int))
      (res : LoopOut B A),
      st.kwargsHistory = none →
      (∀ c ∈ cs, c = none) → (∀ r ∈ rs, r = none) →
      res = longLoop (fun i h => some (gen i h, aud i h)) (fun _ => false)
        interval true false false silence i rem st bs auds cs rs ks →
      res.ok = true ∧ res.conds.length = cs.length + rem ∧
        (∀ c ∈ res.conds, c = none) ∧ (∀ r ∈ res.rollings, r = none) := by
  intro rem
  induction rem with
  | zero =>
    intro i st bs auds cs rs ks res hkw hcs hrs hres
    subst hres
    exact ⟨rfl, rfl, hcs, hrs⟩
  | succ rem ih =>
    intro i st bs auds cs rs ks res hkw hcs hrs hres
    have hpol : policyStep true false st = { st with rolling := none } := rfl
    obtain ⟨st2, hst2⟩ := Option.isSome_iff_exists.mp
      (stabilityUpdate_isSome interval hint (policyStep true false st)
        (gen i (policyStep true false st).kwargsHistory))
    simp only [longLoop, Bool.false_eq_true, if_false] at hres
    rw [hst2] at hres
    dsimp only at hres
    have hkw1 : (policyStep true false st).kwargsHistory = none := hkw
    have hkw2 : st2.kwargsHistory = none := by
      rw [stabilityUpdate_kwargsHistory interval _ st2 _ hst2]
      exact hkw
    have hcs' : ∀ c ∈ cs ++ [(policyStep true false st).kwargsHistory],
        c = none := by
      intro c hc
      rcases List.mem_append.mp hc with h | h
      · exact hcs c h
      · rw [List.mem_singleton.mp h, hkw1]
    have hrs' : ∀ r ∈ rs ++ [(policyStep true false st).rolling], r = none := by
      intro r hr
      rcases List.mem_append.mp hr with h | h
      · exact hrs r h
      · rw [List.mem_singleton.mp h, hpol]
    obtain ⟨hok, hlen, hc2, hr2⟩ := ih (i + 1) st2 _ _ _ _ _ res hkw2 hcs' hrs' hres
    refine ⟨hok, ?_, hc2, hr2⟩
    rw [hlen]
    simp only [List.length_append, List.length_cons, List.length_nil]
    omega

/-- Claim C5: with separate-prompts mode enabled and alternation disabled,
the run drops conditioning from the start: every pipeline call receives
no conditioning (the wrapper cleared the kwargs slot before the loop and
the separate-prompts branch never refills it), and the rolling
conditioning is none at the moment of every call. -/
theorem c5_separate_prompts {B A : Type}
    (fsExists validAt : String → Bool) (dirs : List String)
    (loadBundle : String → B) (history_prompt : Option String)
    (interval_opt : Option Int) (n : Nat)
    (gen : Nat → Option B → B) (aud : Nat → Option B → A)
    (finalCancel : Bool) (silence : Option A)
    (hres : history_prompt = none ∨ ∃ name path, history_prompt = some name ∧
      process_history_prompt fsExists validAt dirs (some name) = some path) :
    ((generate_audio_long fsExists validAt dirs loadBundle history_prompt
        interval_opt false false true false n
        (fun i h => some (gen i h, aud i h)) (fun _ => false) finalCancel
        silence).loopOut.conds.length = n) ∧
    (∀ c ∈ (generate_audio_long fsExists validAt dirs loadBundle
        history_prompt interval_opt false false true false n
        (fun i h => some (gen i h, aud i h)) (fun _ => false) finalCancel
        silence).loopOut.conds, c = none) ∧
    (∀ r ∈ (generate_audio_long fsExists validAt dirs loadBundle
        history_prompt interval_opt false false true false n
        (fun i h => some (gen i h, aud i h)) (fun _ => false) finalCancel
        silence).loopOut.rollings, r = none) := by
  have hint : (0 : Int) ≤
      (if (interval_opt.getD 1) < 0 then 0 else interval_opt.getD 1) := by
    split <;> omega
  unfold generate_audio_long
  simp only [Bool.false_eq_true, if_false, ite_false]
  rcases hres with hnone | ⟨name, path, hname, hpath⟩
  · subst hnone
    dsimp only
    rw [longFinish_loopOut]
    obtain ⟨-, hlen, hcs, hrs⟩ := longLoop_sep_conds gen aud _ hint silence
      n 0 ⟨none, none,
        if 2 ≤ (if interval_opt.getD 1 < 0 then 0 else interval_opt.getD 1)
        then some (if interval_opt.getD 1 < 0 then 0 else interval_opt.getD 1)
        else none, none, false, ""⟩ [] [] [] [] [] _ rfl
      (by intro c hc; cases hc) (by intro r hr; cases hr) rfl
    exact ⟨by rw [hlen]; simp, hcs, hrs⟩
  · subst hname
    dsimp only
    rw [hpath]
    dsimp only
    rw [longFinish_loopOut]
    obtain ⟨-, hlen, hcs, hrs⟩ := longLoop_sep_conds gen aud _ hint silence
      n 0 ⟨some (loadBundle path), some (loadBundle path),
        if 2 ≤ (if interval_opt.getD 1 < 0 then 0 else interval_opt.getD 1)
        then some (if interval_opt.getD 1 < 0 then 0 else interval_opt.getD 1)
        else none, none, false, "base_history"⟩ [] [] [] [] [] _ rfl
      (by intro c hc; cases hc) (by intro r hr; cases hr) rfl
    exact ⟨by rw [hlen]; simp, hcs, hrs⟩

/-- Witness: C5 with two segments and a base bundle resolving from one
directory. -/
theorem c5_separate_prompts_witness :
    (generate_audio_long (B := Nat) (A := Nat)
        (fun s => s == "d1/v.npz") (fun _ => true) ["d1"] (fun _ => 7)
        (some "v") (some 1) false false true false 2
        (fun i h => some (i + 1, i + 100)) (fun _ => false) false
        none).loopOut.conds.length = 2 :=
  (c5_separate_prompts (fun s => s == "d1/v.npz") (fun _ => true) ["d1"]
    (fun _ => 7) (some "v") (some 1) 2 (fun i h => (i + 1 : Nat))
    (fun i h => (i + 100 : Nat)) false none
    (Or.inr ⟨"v", "d1/v.npz", rfl, by decide⟩)).1

/-! ## Claim C6: resolution failure -/

/-- Claim C6 is false as stated: on a run whose base conditioning cannot
be resolved, the controller does cancel without generating any segment,
but text segmentation has already happened — the chunked event is in the
trace. -/
theorem c6_counterexample :
    (generate_audio_long (B := Nat) (A := Nat) (fun _ => false)
        (fun _ => true) ["d"] (fun _ => 0) (some "v") none false false
        false false 2 (fun i h => some (0, 0)) (fun _ => false) false
        none).out = none ∧
      LongEvent.chunked ∈ (generate_audio_long (B := Nat) (A := Nat)
        (fun _ => false) (fun _ => true) ["d"] (fun _ => 0) (some "v") none
        false false false false 2 (fun i h => some (0, 0)) (fun _ => false)
        false none).events := by
  exact ⟨by decide, by decide⟩

/-- Claim C6, amended: when the named base conditioning resolves in no
candidate directory, the controller reports the failure and transitions
to Cancelled, returning the all-None result without invoking the
pipeline for any segment and without writing anything — but text
segmentation has already been performed: chunking precedes resolution,
so the event trace is exactly segmentation followed by the resolution
failure. -/
theorem c6_amended {B A : Type} (fsExists validAt : String → Bool)
    (dirs : List String) (loadBundle : String → B) (name : String)
    (interval_opt : Option Int) (sep flip : Bool) (n : Nat)
    (pipeline : Nat → Option B → Option (B × A))
    (loopCancel : Nat → Bool) (finalCancel : Bool) (silence : Option A)
    (hres : process_history_prompt fsExists validAt dirs (some name) = none) :
    (generate_audio_long fsExists validAt dirs loadBundle (some name)
        interval_opt false false sep flip n pipeline loopCancel finalCancel
        silence).out = none ∧
    (generate_audio_long fsExists validAt dirs loadBundle (some name)
        interval_opt false false sep flip n pipeline loopCancel finalCancel
        silence).loopOut.conds = [] ∧
    (generate_audio_long fsExists validAt dirs loadBundle (some name)
        interval_opt false false sep flip n pipeline loopCancel finalCancel
        silence).events = [.chunked, .resolveFailed] := by
  unfold generate_audio_long
  simp only [Bool.false_eq_true, if_false, ite_false]
  rw [hres]
  exact ⟨rfl, rfl, rfl⟩

/-! ## Claim C1: periodic stability interval -/

/-- The workhorse invariant for the stability interval k ≥ 2: after i
segments the counter holds k - (i mod k), the rolling conditioning is the
base exactly at multiples of k and the previous output otherwise, and the
recorded conditioning trace satisfies the periodic pattern. -/
theorem longLoop_c1 {B A : Type} (gen : Nat → Option B → B)
    (aud : Nat → Option B → A) (k : Nat) (hk : 2 ≤ k) (base : B)
    (silence : Option A) :
    ∀ (rem i : Nat) (st : LongState B) (bs : List B) (auds : List A)
      (cs rs : List (Option B)) (ks : List (Option Int))
      (res : LoopOut B A),
      bs.length = i → cs.length = i →
      st.base = some base →
      st.counter = some ((k : Int) - ((i % k : Nat) : Int)) →
      st.rolling = (if i % k = 0 then some base else bs.get? (i - 1)) →
      (∀ t, t < i → (t % k = 0 → cs.get? t = some (some base)) ∧
        (t % k ≠ 0 → cs.get? t = (bs.get? (t - 1)).map some)) →
      res = longLoop (fun j h => some (gen j h, aud j h)) (fun _ => false)
        ((k : Nat) : Int) false false false silence i rem st bs auds cs rs ks →
      res.ok = true ∧ res.bundles.length = i + rem ∧
        res.conds.length = i + rem ∧
        (∀ t, t < i + rem →
          (t % k = 0 → res.conds.get? t = some (some base)) ∧
          (t % k ≠ 0 → res.conds.get? t = (res.bundles.get? (t - 1)).map some)) := by
  intro rem
  induction rem with
  | zero =>
    intro i st bs auds cs rs ks res hbs hcs hbase hctr hroll hpat hres
    subst hres
    exact ⟨rfl, by simpa using hbs, by simpa using hcs, fun t ht => hpat t (by omega)⟩
  | succ rem ih =>
    intro i st bs auds cs rs ks res hbs hcs hbase hctr hroll hpat hres
    have hmodlt : i % k < k := Nat.mod_lt _ (by omega)
    have hstep : (i + 1) % k = (i % k + 1) % k := by
      rw [Nat.add_mod, Nat.mod_eq_of_lt (show 1 < k by omega)]
    have hpol : policyStep false false st = { st with kwargsHistory := st.rolling } := rfl
    simp only [longLoop, Bool.false_eq_true, if_false] at hres
    rw [hpol] at hres
    dsimp only at hres
    -- the stability bookkeeping
    have hsu : stabilityUpdate ((k : Nat) : Int)
        { st with kwargsHistory := st.rolling } (gen i st.rolling) =
        if st.counter = some 1 then
          some { st with
                  kwargsHistory := st.rolling
                  counter := some ((k : Nat) : Int)
                  prevType := "base_history"
                  rolling := st.base }
        else
          some { st with
                  kwargsHistory := st.rolling
                  counter := st.counter.map (fun x => x - 1)
                  prevType := "full_generation"
                  rolling := some (gen i st.rolling) } := by
      have hbn : ({ st with kwargsHistory := st.rolling } :
          LongState B).base.isNone = false := by
        simp [hbase]
      simp only [stabilityUpdate, hbn, Bool.false_eq_true, if_false]
      rw [if_neg (by omega), if_neg (by omega), if_pos (by omega)]
    rw [hsu] at hres
    by_cases hend : i % k = k - 1
    · -- the counter hits 1: reset to base
      have hc1 : st.counter = some 1 := by
        rw [hctr, hend]
        congr 1
        rw [Nat.cast_sub (by omega : 1 ≤ k)]
        push_cast
        ring
      rw [if_pos hc1] at hres
      dsimp only at hres
      have hnext0 : (i + 1) % k = 0 := by
        rw [hstep, hend, show k - 1 + 1 = k from by omega, Nat.mod_self]
      rw [show i + (rem + 1) = i + 1 + rem from by omega]
      refine ih (i + 1)
        ⟨st.base, st.base, some ((k : Nat) : Int), st.rolling, st.flipper,
          "base_history"⟩
        (bs ++ [gen i st.rolling]) _ _ _ _ res
        (by simp [hbs]) (by simp [hcs]) hbase
        (by dsimp only; rw [hnext0]; simp)
        (by dsimp only; rw [hnext0, if_pos rfl]; exact hbase)
        ?_ hres
      intro t ht
      rcases Nat.lt_or_ge t i with hti | hti
      · have hcsa : (cs ++ [st.rolling]).get? t = cs.get? t :=
          List.get?_append (by omega)
        have hbsa : (bs ++ [gen i st.rolling]).get? (t - 1) = bs.get? (t - 1) :=
          List.get?_append (by omega)
        exact ⟨fun hz => by rw [hcsa]; exact (hpat t hti).1 hz,
          fun hnz => by rw [hcsa, hbsa]; exact (hpat t hti).2 hnz⟩
      · have hti' : t = i := by omega
        subst hti'
        have hcsa : (cs ++ [st.rolling]).get? t = some st.rolling := by
          rw [← hcs]; exact List.get?_concat_length cs st.rolling
        constructor
        · intro hz
          rw [hcsa, hroll, if_pos hz]
        · intro hnz
          have htpos : t ≠ 0 := fun h0 => hnz (by rw [h0, Nat.zero_mod])
          have ht1 : t - 1 < bs.length := by rw [hbs]; omega
          have hbsa : (bs ++ [gen t st.rolling]).get? (t - 1) = bs.get? (t - 1) :=
            List.get?_append ht1
          rw [hcsa, hbsa, List.get?_eq_get ht1, hroll, if_neg hnz,
            List.get?_eq_get ht1]
          rfl
    · -- ordinary decrement: drift from the previous output
      have hc1 : ¬ st.counter = some 1 := by
        rw [hctr]
        intro hcon
        have := Option.some.inj hcon
        omega
      rw [if_neg hc1] at hres
      dsimp only at hres
      have hnext : (i + 1) % k = i % k + 1 := by
        rw [hstep, Nat.mod_eq_of_lt (by omega)]
      rw [show i + (rem + 1) = i + 1 + rem from by omega]
      refine ih (i + 1)
        ⟨some (gen i st.rolling), st.base,
          Option.map (fun x => x - 1) st.counter, st.rolling, st.flipper,
          "full_generation"⟩
        (bs ++ [gen i st.rolling]) _ _ _ _ res
        (by simp [hbs]) (by simp [hcs]) hbase
        (by dsimp only; rw [hctr, hnext]; dsimp only [Option.map]
            congr 1
            push_cast
            ring)
        ?_ ?_ hres
      · dsimp only
        rw [hnext, if_neg (by omega)]
        simp only [Nat.add_sub_cancel]
        have hcl := List.get?_concat_length bs (gen i st.rolling)
        rw [hbs] at hcl
        exact hcl.symm
      · intro t ht
        rcases Nat.lt_or_ge t i with hti | hti
        · have hcsa : (cs ++ [st.rolling]).get? t = cs.get? t :=
            List.get?_append (by omega)
          have hbsa : (bs ++ [gen i st.rolling]).get? (t - 1) = bs.get? (t - 1) :=
            List.get?_append (by omega)
          exact ⟨fun hz => by rw [hcsa]; exact (hpat t hti).1 hz,
            fun hnz => by rw [hcsa, hbsa]; exact (hpat t hti).2 hnz⟩
        · have hti' : t = i := by omega
          subst hti'
          have hcsa : (cs ++ [st.rolling]).get? t = some st.rolling := by
            rw [← hcs]; exact List.get?_concat_length cs st.rolling
          constructor
          · intro hz
            rw [hcsa, hroll, if_pos hz]
          · intro hnz
            have htpos : t ≠ 0 := fun h0 => hnz (by rw [h0, Nat.zero_mod])
            have ht1 : t - 1 < bs.length := by rw [hbs]; omega
            have hbsa : (bs ++ [gen t st.rolling]).get? (t - 1) = bs.get? (t - 1) :=
              List.get?_append ht1
            rw [hcsa, hbsa, List.get?_eq_get ht1, hroll, if_neg hnz,
              List.get?_eq_get ht1]
            rfl

/-- Claim C1: with stability interval k ≥ 2, neither alternating-speaker
mode nor separate-prompts mode, and a base bundle loaded, the pipeline
call for 1-based segment s receives the base bundle exactly at s = 1,
k+1, 2k+1, ... (0-based index divisible by k) and the immediately
preceding segment's output bundle otherwise. -/
theorem c1_stability_interval {B A : Type}
    (fsExists validAt : String → Bool) (dirs : List String)
    (loadBundle : String → B) (name path : String)
    (k : Nat) (hk : 2 ≤ k) (n : Nat)
    (gen : Nat → Option B → B) (aud : Nat → Option B → A)
    (finalCancel : Bool) (silence : Option A) (res : LongOut B A)
    (hres : process_history_prompt fsExists validAt dirs (some name) = some path)
    (hrun : res = generate_audio_long fsExists validAt dirs loadBundle
      (some name) (some ((k : Nat) : Int)) false false false false n
      (fun i h => some (gen i h, aud i h)) (fun _ => false) finalCancel
      silence) :
    res.loopOut.ok = true ∧ res.loopOut.bundles.length = n ∧
      res.loopOut.conds.length = n ∧
      (∀ t, t < n →
        (t % k = 0 → res.loopOut.conds.get? t = some (some (loadBundle path))) ∧
        (t % k ≠ 0 → res.loopOut.conds.get? t =
          (res.loopOut.bundles.get? (t - 1)).map some)) := by
  unfold generate_audio_long at hrun
  simp only [Bool.false_eq_true, if_false, ite_false, Option.getD_some] at hrun
  rw [hres] at hrun
  dsimp only at hrun
  rw [if_neg (show ¬ ((k : Nat) : Int) < 0 by omega),
    if_pos (show (2 : Int) ≤ ((k : Nat) : Int) by omega)] at hrun
  have hloop := longLoop_c1 gen aud k hk (loadBundle path) silence n 0
    ⟨some (loadBundle path), some (loadBundle path), some ((k : Nat) : Int),
      none, false, "base_history"⟩ [] [] [] [] [] res.loopOut
    rfl rfl rfl (by simp) (by simp) (by intro t ht; omega)
    (by rw [hrun, longFinish_loopOut])
  obtain ⟨hok, hbl, hcl, hpat⟩ := hloop
  exact ⟨hok, by simpa using hbl, by simpa using hcl,
    fun t ht => hpat t (by omega)⟩

/-- Witness: C1 with k = 2 over five segments. -/
theorem c1_stability_interval_witness :
    (generate_audio_long (B := Nat) (A := Nat) (fun s => s == "d1/v.npz")
        (fun _ => true) ["d1"] (fun _ => 0) (some "v") (some 2) false false
        false false 5 (fun i h => some (i + 1, i + 100)) (fun _ => false)
        false none).loopOut.conds.length = 5 :=
  (c1_stability_interval (fun s => s == "d1/v.npz") (fun _ => true) ["d1"]
    (fun _ => 0) "v" "d1/v.npz" 2 (by omega) 5 (fun i h => i + 1)
    (fun i h => i + 100) false none _ (by decide) rfl).2.2.1

/-! ## Claim C2: the three-segment interval-2 scenario -/

/-- Claim C2 is false as stated: in the 3-segment interval-2 run the
conditioning actually passed is [base, output of segment 1, base], not
[base, base, previous output] — the counter decrements after segment 1
and only resets (to the base) after segment 2. -/
theorem c2_counterexample :
    (generate_audio_long (B := Nat) (A := Nat) (fun s => s == "d1/v.npz")
        (fun _ => true) ["d1"] (fun _ => 0) (some "v") (some 2) false false
        false false 3 (fun i h => some (i + 1, i + 100)) (fun _ => false)
        false none).loopOut.conds = [some 0, some 1, some 0] ∧
      ([some 0, some 1, some 0] : List (Option Nat)) ≠
        [some 0, some 0, some 2] := by
  exact ⟨by decide, by decide⟩

/-- Claim C2, amended: for a run of exactly 3 segments with interval 2 and
a successfully loaded base bundle, the conditioning bundles passed to the
three pipeline calls are, in order: the base bundle, the first segment's
output bundle, and a copy of the base bundle; the countdown counter is 1
after segment 1, resets to 2 after segment 2, and is 1 after segment 3. -/
theorem c2_three_segments {B A : Type}
    (fsExists validAt : String → Bool) (dirs : List String)
    (loadBundle : String → B) (name path : String)
    (gen : Nat → Option B → B) (aud : Nat → Option B → A)
    (silence : Option A)
    (hres : process_history_prompt fsExists validAt dirs (some name) = some path) :
    (generate_audio_long fsExists validAt dirs loadBundle (some name)
        (some 2) false false false false 3
        (fun i h => some (gen i h, aud i h)) (fun _ => false) false
        silence).loopOut.conds =
      [some (loadBundle path), some (gen 0 (some (loadBundle path))),
        some (loadBundle path)] ∧
    (generate_audio_long fsExists validAt dirs loadBundle (some name)
        (some 2) false false false false 3
        (fun i h => some (gen i h, aud i h)) (fun _ => false) false
        silence).loopOut.counters = [some 1, some 2, some 1] := by
  unfold generate_audio_long
  simp only [Bool.false_eq_true, if_false, ite_false, Option.getD_some]
  rw [hres]
  exact ⟨rfl, rfl⟩

/-- Witness: the amended C2 at a concrete resolvable speaker. -/
theorem c2_three_segments_witness :
    (generate_audio_long (B := Nat) (A := Nat) (fun s => s == "d1/v.npz")
        (fun _ => true) ["d1"] (fun _ => 0) (some "v") (some 2) false false
        false false 3 (fun i h => some (i + 1, i + 100)) (fun _ => false)
        false none).loopOut.counters = [some 1, some 2, some 1] :=
  (c2_three_segments (fun s => s == "d1/v.npz") (fun _ => true) ["d1"]
    (fun _ => 0) "v" "d1/v.npz" (fun i h => i + 1) (fun i h => i + 100)
    none (by decide)).2

/-- Witness: the amended C6 at a concrete unresolvable speaker name. -/
theorem c6_amended_witness :
    (generate_audio_long (B := Nat) (A := Nat) (fun _ => false)
        (fun _ => true) ["dirA", "dirB"] (fun _ => 3) (some "ghost") (some 2)
        false false false false 3 (fun i h => some (1, 2)) (fun _ => false)
        false none).events = [.chunked, .resolveFailed] :=
  (c6_amended (fun _ => false) (fun _ => true) ["dirA", "dirB"] (fun _ => 3)
    "ghost" (some 2) false false 3 (fun i h => some (1, 2)) (fun _ => false)
    false none (by decide)).2.2

end Bark
